import Mathlib

/-!
Shallow embedding of the `config` Go package (`config.go`): a process-wide
configuration loader that scans a search path taken from the `CONFIG_PATH`
environment variable, reads every regular file found in the listed
directories into an in-memory map keyed by base file name, and exposes
typed accessors (`Bytes`, `String`, `Userinfo`, `Url`, `InterfaceJson`,
`InterfaceYaml`).

The filesystem and the environment are modelled as explicit inputs
(`World`); the package-level mutable state (`sync.Once` guard, `pkgVal`,
`pkgErr`) is modelled as explicit state passing (`PkgState`).  Go strings
and `[]byte` values are both modelled as Lean `String` (file contents in
the claims are ASCII, where Go's byte-oriented operations and the
code-point-oriented operations used here agree).
-/

set_option autoImplicit false

namespace Config

/-! ### Go error values

Go errors are modelled as an inductive tree: `errNotExist` is
`os.ErrNotExist`, `simple` is `errors.New` / `fmt.Errorf` without `%w`,
and `wrapf` is `fmt.Errorf` with a single `%w` verb (the stored message is
the fully rendered message, the stored inner error the wrapped one, as
observed by `errors.Unwrap`). -/

inductive GoError where
  | errNotExist : GoError
  | simple (msg : String) : GoError
  | wrapf (msg : String) (inner : GoError) : GoError
deriving DecidableEq, Repr

/-- The rendered message of an error (Go's `Error()` method). -/
def GoError.message : GoError → String
  | .errNotExist => "file does not exist"
  | .simple m => m
  | .wrapf m _ => m

/-- The unwrap chain of an error: the error itself followed by everything
reachable through `errors.Unwrap`. -/
def GoError.chain : GoError → List GoError
  | .wrapf m i => .wrapf m i :: i.chain
  | .errNotExist => [.errNotExist]
  | .simple m => [.simple m]

/-- `e.wraps t` corresponds to Go's `errors.Is(e, t)` for the error values
used in this development: `t` is `e` itself or is reachable by unwrapping. -/
def GoError.wraps (e t : GoError) : Prop := t ∈ e.chain

instance (e t : GoError) : Decidable (e.wraps t) := by
  unfold GoError.wraps; infer_instance

/-- `%q` of `fmt`: Go additionally escapes special characters inside the
string; the names quoted in this development contain none. -/
def goQuote (s : String) : String := "\"" ++ s ++ "\""

/-- `fmt.Errorf("config: error reading directory %q: %w", p, err)` -/
def dirReadErr (p : String) (cause : GoError) : GoError :=
  .wrapf ("config: error reading directory " ++ goQuote p ++ ": " ++ cause.message) cause

/-- `fmt.Errorf("config: multiple config entries with name: %q", b)` -/
def dupNameErr (b : String) : GoError :=
  .simple ("config: multiple config entries with name: " ++ goQuote b)

/-- `fmt.Errorf("config: encountered while loading config: %w", pkgErr)` -/
def loadWrapErr (e : GoError) : GoError :=
  .wrapf ("config: encountered while loading config: " ++ e.message) e

/-- `fmt.Errorf("config: failed to get value %q because there was a load error: %w", n, err)` -/
def bytesWrapErr (n : String) (e : GoError) : GoError :=
  .wrapf ("config: failed to get value " ++ goQuote n ++
    " because there was a load error: " ++ e.message) e

/-- `fmt.Errorf("config: failed to unmarshal %s into %T: %w", n, v, err)` -/
def unmarshalWrapErr (n tyName : String) (e : GoError) : GoError :=
  .wrapf ("config: failed to unmarshal " ++ n ++ " into " ++ tyName ++ ": " ++ e.message) e

/-! ### `path/filepath` helpers (POSIX rules, `Separator = '/'`,
`ListSeparator = ':'`) -/

def isPathSep (c : Char) : Bool := c = '/'

/-- `filepath.Base` (POSIX: there are no volume names): strip trailing
separators, keep the part after the last separator; empty input gives
`"."`, an all-separator input gives `"/"`. -/
def filepathBase (path : String) : String :=
  if path = "" then "."
  else
    let trimmed := (path.data.reverse.dropWhile isPathSep).reverse
    let last := (trimmed.reverse.takeWhile (fun c => !(isPathSep c))).reverse
    if last = [] then "/" else String.mk last

/-- `filepath.Join(dir, name)` for the call in `Load`.  Go additionally
runs `Clean` on the joined result; for the entry names `ioutil.ReadDir`
can yield (nonempty, free of separators, never `"."` or `".."`) `Clean`
never alters the final path element, so it is omitted here. -/
def filepathJoin (dir name : String) : String :=
  if dir = "" then name else dir ++ "/" ++ name

/-- `strings.Split` on a one-character separator, over character lists
(the result list is always nonempty, like Go's). -/
def splitSepChars (sep : Char) : List Char → List (List Char)
  | [] => [[]]
  | c :: cs =>
    match splitSepChars sep cs with
    | [] => [[]]
    | piece :: rest => if c = sep then [] :: piece :: rest else (c :: piece) :: rest

/-- `filepath.SplitList` (POSIX): empty string gives no entries, otherwise
`strings.Split` on `':'`. -/
def splitList (p : String) : List String :=
  if p = "" then [] else (splitSepChars ':' p.data).map String.mk

/-! ### The world: environment variable and filesystem -/

/-- One directory entry as returned by `ioutil.ReadDir`: its name within
the directory, whether it is a (sub)directory, and the outcome of
`ioutil.ReadFile` on it (`none`: the read fails). -/
structure Entry where
  name : String
  isDir : Bool
  content : Option String
deriving DecidableEq, Repr

/-- The external world of one process run: the value of the `CONFIG_PATH`
environment variable (`none` when unset), the compiled-in `DefaultPath`,
and the filesystem as the outcome of `ioutil.ReadDir` on each path. -/
structure World where
  env : Option String
  defaultPath : String
  fs : String → Except GoError (List Entry)

/-- `Path()`: the value of `EnvVar` if set (even if empty), else
`DefaultPath`. -/
def pathValue (w : World) : String :=
  match w.env with
  | some v => v
  | none => w.defaultPath

/-- The directories `Load` iterates over. -/
def searchDirs (w : World) : List String := splitList (pathValue w)

/-! ### The store and the load loop -/

/-- The `map[string][]byte` built by `Load`, as an association list in
insertion order.  The loop only ever inserts fresh keys (a colliding key
aborts the load), so first-match lookup agrees with Go map lookup. -/
abbrev Store := List (String × String)

/-- Go map lookup (`result[b]`); `none` plays the role of the `nil` value
for an absent key (`ioutil.ReadFile` never returns a `nil` slice, so
presence coincides with a non-`nil` value). -/
def storeGet (m : Store) (k : String) : Option String :=
  match m with
  | [] => none
  | (k₁, v) :: rest => if k₁ = k then some v else storeGet rest k

/-- The base name the loop computes for a directory entry. -/
def entryKey (dir : String) (e : Entry) : String :=
  filepathBase (filepathJoin dir e.name)

/-- The inner loop of `Load` over the entries of one directory `dir`:
subdirectory entries are skipped; a non-directory entry whose base name is
already present aborts with the duplicate-name error; otherwise the file
is read — a failed read skips the entry silently, a successful read
appends `base name ↦ content`. -/
def loadEntries (dir : String) : List Entry → Store → Except GoError Store
  | [], acc => .ok acc
  | e :: rest, acc =>
    if e.isDir then loadEntries dir rest acc
    else
      let b := entryKey dir e
      if (storeGet acc b).isSome then .error (dupNameErr b)
      else
        match e.content with
        | none => loadEntries dir rest acc
        | some d => loadEntries dir rest (acc ++ [(b, d)])

/-- The outer loop of `Load` over the search-path directories: a failing
`ioutil.ReadDir` aborts with the directory-read error. -/
def loadDirs (w : World) : List String → Store → Except GoError Store
  | [], acc => .ok acc
  | p :: ps, acc =>
    match w.fs p with
    | .error e => .error (dirReadErr p e)
    | .ok entries =>
      match loadEntries p entries acc with
      | .error e => .error e
      | .ok acc₁ => loadDirs w ps acc₁

/-- The outcome of the body of `pkgOnce.Do`: either the finished store
(published to `pkgVal`) or the fatal error (recorded in `pkgErr`). -/
def loadResult (w : World) : Except GoError Store :=
  loadDirs w (searchDirs w) []

/-! ### Package state and `Load` -/

/-- The package-level mutable state: whether `pkgOnce` has fired, `pkgVal`
(`none` is the `nil` map), `pkgErr`, and — as instrumentation for the
exactly-once guarantee — the number of executions of the once body. -/
structure PkgState where
  onceDone : Bool
  pkgVal : Option Store
  pkgErr : Option GoError
  runs : Nat
deriving DecidableEq, Repr

/-- The state at process start: `pkgOnce` not fired, `pkgVal` and `pkgErr`
nil, the once body never run. -/
def initState : PkgState := ⟨false, none, none, 0⟩

/-- `pkgOnce.Do(func() { ... })`: a no-op once fired; on the first call it
runs the scan and publishes either the store or the error.  On failure
`pkgVal` stays `nil` — the partially built `result` map is discarded. -/
def loadOnce (w : World) (s : PkgState) : PkgState :=
  if s.onceDone then s
  else
    match loadResult w with
    | .ok m => ⟨true, some m, none, s.runs + 1⟩
    | .error e => ⟨true, none, some e, s.runs + 1⟩

/-- `Load()`: fire the once guard, then return the recorded error (wrapped
with the loading context) or `nil`. -/
def Load (w : World) (s : PkgState) : PkgState × Option GoError :=
  let s₁ := loadOnce w s
  match s₁.pkgErr with
  | some e => (s₁, some (loadWrapErr e))
  | none => (s₁, none)

/-- `k` successive `Load` calls starting from `s` (each call's state
effect is the once guard). -/
def loadIter (w : World) : Nat → PkgState → PkgState
  | 0, s => s
  | k + 1, s => loadIter w k (Load w s).1

/-! ### Accessors

Each accessor mirrors Go's `(value, error)` return pair as
`Option value × Option GoError`, with `none` playing the role of the
typed `nil` / zero value returned alongside an error. -/

/-- `Bytes(n)`: run `Load`; on a load error return the wrapped error; else
look `n` up in `pkgVal`, with `os.ErrNotExist` for an absent key. -/
def Bytes (w : World) (s : PkgState) (n : String) :
    PkgState × (Option String × Option GoError) :=
  match Load w s with
  | (s₁, some err) => (s₁, (none, some (bytesWrapErr n err)))
  | (s₁, none) =>
    match storeGet (s₁.pkgVal.getD []) n with
    | some v => (s₁, (some v, none))
    | none => (s₁, (none, some .errNotExist))

/-- `String(n)`: `Bytes(n)` converted to a string; the error case returns
the empty string together with the unchanged error.  (Named `StringVal`
here because `String` is taken by Lean's string type.) -/
def StringVal (w : World) (s : PkgState) (n : String) :
    PkgState × (String × Option GoError) :=
  match Bytes w s n with
  | (s₁, (_, some err)) => (s₁, ("", some err))
  | (s₁, (b, none)) => (s₁, (b.getD "", none))

/-! ### JSON values and `encoding/json` parsing, as used by `Userinfo` and
`InterfaceJson` -/

/-- A JSON document.  Numbers keep their literal text (their numeric value
is never needed: a number can only appear where the target struct rejects
it or where it is returned generically). -/
inductive Json where
  | null
  | bool (b : Bool)
  | num (lit : String)
  | str (s : String)
  | arr (elems : List Json)
  | obj (fields : List (String × Json))
deriving Repr

/-- JSON whitespace (space, tab, carriage return, newline). -/
def isJsonWs (c : Char) : Bool :=
  c == ' ' || c == '\t' || c == '\r' || c == '\n'

def skipWs : List Char → List Char
  | [] => []
  | c :: cs => if isJsonWs c then skipWs cs else c :: cs

/-- Value of a hex digit. -/
def hexVal (c : Char) : Option Nat :=
  if '0' ≤ c ∧ c ≤ '9' then some (c.toNat - '0'.toNat)
  else if 'a' ≤ c ∧ c ≤ 'f' then some (c.toNat - 'a'.toNat + 10)
  else if 'A' ≤ c ∧ c ≤ 'F' then some (c.toNat - 'A'.toNat + 10)
  else none

/-- Parse the remainder of a JSON string literal (after the opening
quote), returning its decoded characters and the input after the closing
quote.  `\uXXXX` decodes to the code point `XXXX` (surrogate-pair joining,
which no claim exercises, is not performed); control characters are
rejected.  `fuel` only bounds recursion and is always supplied large
enough. -/
def parseJStr : Nat → List Char → Option (List Char × List Char)
  | 0, _ => none
  | _ + 1, [] => none
  | fuel + 1, c :: cs =>
    if c = '"' then some ([], cs)
    else if c = '\\' then
      match cs with
      | [] => none
      | e :: cs₁ =>
        if e = '"' ∨ e = '\\' ∨ e = '/' then
          (parseJStr fuel cs₁).map (fun r => (e :: r.1, r.2))
        else if e = 'b' then (parseJStr fuel cs₁).map (fun r => (Char.ofNat 8 :: r.1, r.2))
        else if e = 'f' then (parseJStr fuel cs₁).map (fun r => (Char.ofNat 12 :: r.1, r.2))
        else if e = 'n' then (parseJStr fuel cs₁).map (fun r => ('\n' :: r.1, r.2))
        else if e = 'r' then (parseJStr fuel cs₁).map (fun r => ('\r' :: r.1, r.2))
        else if e = 't' then (parseJStr fuel cs₁).map (fun r => ('\t' :: r.1, r.2))
        else if e = 'u' then
          match cs₁ with
          | h₁ :: h₂ :: h₃ :: h₄ :: cs₂ =>
            match hexVal h₁, hexVal h₂, hexVal h₃, hexVal h₄ with
            | some a, some b, some c₂, some d =>
              (parseJStr fuel cs₂).map
                (fun r => (Char.ofNat (((a * 16 + b) * 16 + c₂) * 16 + d) :: r.1, r.2))
            | _, _, _, _ => none
          | _ => none
        else none
    else if c.toNat < 0x20 then none
    else (parseJStr fuel cs).map (fun r => (c :: r.1, r.2))

/-- Parse a JSON number literal starting at the first character (`-` or a
digit), following the JSON grammar (`-? int frac? exp?`, no leading
zeros).  Returns the literal and the rest of the input. -/
def parseNum (s : List Char) : Option (List Char × List Char) :=
  let (sign, s₁) :=
    match s with
    | '-' :: r => ((['-'] : List Char), r)
    | _ => ([], s)
  match s₁ with
  | [] => none
  | c :: r =>
    if ¬ c.isDigit then none
    else
      let (intPart, r₁) :=
        if c = '0' then ((['0'] : List Char), r)
        else
          let sp := r.span Char.isDigit
          (c :: sp.1, sp.2)
      let fracRes : Option (List Char × List Char) :=
        match r₁ with
        | '.' :: r₂ =>
          let sp := r₂.span Char.isDigit
          if sp.1 = [] then none else some ('.' :: sp.1, sp.2)
        | _ => some ([], r₁)
      match fracRes with
      | none => none
      | some (fracPart, r₃) =>
        let expRes : Option (List Char × List Char) :=
          match r₃ with
          | e :: r₄ =>
            if e = 'e' ∨ e = 'E' then
              let (sgn, r₅) :=
                match r₄ with
                | '+' :: r₆ => ((['+'] : List Char), r₆)
                | '-' :: r₆ => ((['-'] : List Char), r₆)
                | _ => ([], r₄)
              let sp := r₅.span Char.isDigit
              if sp.1 = [] then none else some (e :: (sgn ++ sp.1), sp.2)
            else some ([], r₃)
          | [] => some ([], r₃)
        match expRes with
        | none => none
        | some (expPart, r₆) => some (sign ++ intPart ++ fracPart ++ expPart, r₆)

mutual

/-- Parse one JSON value (leading whitespace allowed), returning it and
the rest of the input.  The fuel argument only bounds nesting and element
counts and is always supplied large enough at the top level. -/
def parseVal : Nat → List Char → Option (Json × List Char)
  | 0, _ => none
  | fuel + 1, s =>
    match skipWs s with
    | [] => none
    | c :: r =>
      if c = 'n' then
        match r with
        | 'u' :: 'l' :: 'l' :: r₂ => some (.null, r₂)
        | _ => none
      else if c = 't' then
        match r with
        | 'r' :: 'u' :: 'e' :: r₂ => some (.bool true, r₂)
        | _ => none
      else if c = 'f' then
        match r with
        | 'a' :: 'l' :: 's' :: 'e' :: r₂ => some (.bool false, r₂)
        | _ => none
      else if c = '"' then
        (parseJStr fuel r).map (fun p => (.str (String.mk p.1), p.2))
      else if c = '[' then
        match skipWs r with
        | ']' :: r₂ => some (.arr [], r₂)
        | _ => parseElems fuel r []
      else if c = '{' then
        match skipWs r with
        | '}' :: r₂ => some (.obj [], r₂)
        | _ => parseFields fuel r []
      else if c = '-' ∨ c.isDigit then
        (parseNum (c :: r)).map (fun p => (.num (String.mk p.1), p.2))
      else none

/-- Parse the elements of a JSON array after `[` (the empty array was
handled by the caller). -/
def parseElems : Nat → List Char → List Json → Option (Json × List Char)
  | 0, _, _ => none
  | fuel + 1, s, acc =>
    match parseVal fuel s with
    | none => none
    | some (v, r) =>
      match skipWs r with
      | ',' :: r₂ => parseElems fuel r₂ (acc ++ [v])
      | ']' :: r₂ => some (.arr (acc ++ [v]), r₂)
      | _ => none

/-- Parse the members of a JSON object after the opening brace (the empty
object was handled by the caller). -/
def parseFields : Nat → List Char → List (String × Json) → Option (Json × List Char)
  | 0, _, _ => none
  | fuel + 1, s, acc =>
    match skipWs s with
    | '"' :: r =>
      match parseJStr fuel r with
      | none => none
      | some (k, r₁) =>
        match skipWs r₁ with
        | ':' :: r₂ =>
          match parseVal fuel r₂ with
          | none => none
          | some (v, r₃) =>
            match skipWs r₃ with
            | ',' :: r₄ => parseFields fuel r₄ (acc ++ [(String.mk k, v)])
            | '}' :: r₄ => some (.obj (acc ++ [(String.mk k, v)]), r₄)
            | _ => none
        | _ => none
    | _ => none

end

/-- `encoding/json` syntactic validation plus generic decoding: a
document is accepted when exactly one JSON value (surrounded by optional
whitespace) spans the whole input.  `none` models the `SyntaxError` that
`json.Unmarshal` reports (its position-specific message is irrelevant to
every claim). -/
def jsonParse (s : String) : Option Json :=
  match parseVal (2 * s.data.length + 2) s.data with
  | some (v, rest) => if skipWs rest = [] then some v else none
  | none => none

/-- Stand-in for the `*json.SyntaxError` values of `encoding/json`. -/
def jsonSyntaxErr : GoError := .simple "json: syntax error"

/-- Display name of a JSON kind as used in `UnmarshalTypeError` messages. -/
def jsonKindName : Json → String
  | .null => "null"
  | .bool _ => "bool"
  | .num _ => "number"
  | .str _ => "string"
  | .arr _ => "array"
  | .obj _ => "object"

/-- Stand-in for `*json.UnmarshalTypeError`. -/
def jsonTypeErr (kind target : String) : GoError :=
  .simple ("json: cannot unmarshal " ++ kind ++ " into Go value of type " ++ target)

/-- ASCII lower-casing (the strings it is applied to are ASCII, where it
agrees with Go's Unicode folding). -/
def asciiLowerChar (c : Char) : Char :=
  if 'A' ≤ c ∧ c ≤ 'Z' then Char.ofNat (c.toNat + 32) else c

/-- Case-insensitive key match, as `encoding/json` uses to match object
keys against struct field tags. -/
def eqFoldAscii (a b : String) : Bool :=
  a.data.map asciiLowerChar == b.data.map asciiLowerChar

/-- The unexported `userinfo` struct of the package: fields `Username`
(tag `username`) and `Password` (tag `password`). -/
structure UserinfoRec where
  username : String
  password : String
deriving DecidableEq, Repr

/-- Decode one object member into the `userinfo` struct, mirroring
`encoding/json`: a string value assigns the field, `null` leaves it
untouched, any other kind records an `UnmarshalTypeError` (the first such
error is kept and decoding continues), and unknown keys are ignored. -/
def setUserinfoField (st : UserinfoRec × Option GoError) (k : String) (v : Json) :
    UserinfoRec × Option GoError :=
  if eqFoldAscii k "username" then
    match v with
    | .str s => ({ st.1 with username := s }, st.2)
    | .null => st
    | other =>
      (st.1, match st.2 with
        | some e => some e
        | none => some (jsonTypeErr (jsonKindName other) "string"))
  else if eqFoldAscii k "password" then
    match v with
    | .str s => ({ st.1 with password := s }, st.2)
    | .null => st
    | other =>
      (st.1, match st.2 with
        | some e => some e
        | none => some (jsonTypeErr (jsonKindName other) "string"))
  else st

/-- `json.Unmarshal` of a parsed document into the `userinfo` struct: an
object decodes member by member, `null` is a no-op leaving the zero
struct, and every other kind is an `UnmarshalTypeError`. -/
def unmarshalUserinfo : Json → Except GoError UserinfoRec
  | .null => .ok ⟨"", ""⟩
  | .obj fields =>
    let r := fields.foldl (fun st kv => setUserinfoField st kv.1 kv.2) (⟨"", ""⟩, none)
    match r.2 with
    | some e => .error e
    | none => .ok r.1
  | v => .error (jsonTypeErr (jsonKindName v) "config.userinfo")

/-- `json.Unmarshal(b, &ui)` for `ui` of type `userinfo`: syntactic
validation, then decoding. -/
def jsonUnmarshalUserinfo (b : String) : Except GoError UserinfoRec :=
  match jsonParse b with
  | none => .error jsonSyntaxErr
  | some v => unmarshalUserinfo v

/-! ### `net/url` credentials -/

/-- `*url.Userinfo`: username, password, and whether the password was
set. -/
structure GoUserinfo where
  username : String
  password : String
  passwordSet : Bool
deriving DecidableEq, Repr

/-- `url.User(username)` -/
def urlUser (username : String) : GoUserinfo := ⟨username, "", false⟩

/-- `url.UserPassword(username, password)` -/
def urlUserPassword (username password : String) : GoUserinfo :=
  ⟨username, password, true⟩

/-- `Userinfo(n)`: `Bytes`, then `json.Unmarshal` into `userinfo`, then
`url.User` for an empty password and `url.UserPassword` otherwise.  A
`Bytes` error is passed through unchanged; an unmarshal error is wrapped
with the key. -/
def Userinfo (w : World) (s : PkgState) (n : String) :
    PkgState × (Option GoUserinfo × Option GoError) :=
  match Bytes w s n with
  | (s₁, (_, some err)) => (s₁, (none, some err))
  | (s₁, (b, none)) =>
    match jsonUnmarshalUserinfo (b.getD "") with
    | .error e => (s₁, (none, some (unmarshalWrapErr n "*url.Userinfo" e)))
    | .ok ui =>
      if ui.password = "" then (s₁, (some (urlUser ui.username), none))
      else (s₁, (some (urlUserPassword ui.username ui.password), none))

/-! ### `net/url` parsing (`url.Parse`), as used by `Url`

Transcribed from `net/url/url.go` (the Go release era the package builds
against).  Strings are handled as character lists; all inputs the claims
exercise are ASCII, where Go's byte-wise processing and this code-point
processing agree (a `%`-decoded byte becomes the character with that code
value). -/

/-- The encoding contexts of `net/url`. -/
inductive UrlEncoding where
  | path
  | pathSegment
  | host
  | zone
  | userPassword
  | queryComponent
  | fragment
deriving DecidableEq, Repr

/-- `shouldEscape(c, mode)` of `net/url`: is `c` reserved in context
`mode`? -/
def shouldEscape (c : Char) (mode : UrlEncoding) : Bool :=
  if ('a' ≤ c ∧ c ≤ 'z') ∨ ('A' ≤ c ∧ c ≤ 'Z') ∨ ('0' ≤ c ∧ c ≤ '9') then false
  else if (mode = .host ∨ mode = .zone) ∧
      (c = '!' ∨ c = '$' ∨ c = '&' ∨ c = '\'' ∨ c = '(' ∨ c = ')' ∨ c = '*' ∨
       c = '+' ∨ c = ',' ∨ c = ';' ∨ c = '=' ∨ c = ':' ∨ c = '[' ∨ c = ']' ∨
       c = '<' ∨ c = '>' ∨ c = '"') then false
  else if c = '-' ∨ c = '_' ∨ c = '.' ∨ c = '~' then false
  else if c = '$' ∨ c = '&' ∨ c = '+' ∨ c = ',' ∨ c = '/' ∨ c = ':' ∨ c = ';' ∨
      c = '=' ∨ c = '?' ∨ c = '@' then
    match mode with
    | .path => c == '?'
    | .pathSegment => c == '/' || c == ';' || c == ',' || c == '?'
    | .userPassword => c == '@' || c == '/' || c == '?' || c == ':'
    | .queryComponent => true
    | .fragment => false
    | _ => true
  else if mode = .fragment ∧ (c = '!' ∨ c = '(' ∨ c = ')' ∨ c = '*') then false
  else true

/-- `EscapeError`: invalid `%` escape. -/
def escapeErr (s : String) : GoError :=
  .simple ("invalid URL escape " ++ goQuote s)

/-- `InvalidHostError`: forbidden character in a host name. -/
def invalidHostCharErr (c : Char) : GoError :=
  .simple ("invalid character " ++ goQuote (String.mk [c]) ++ " in host name")

/-- `unescape(s, mode)` of `net/url`: `%`-decode, with the mode-specific
rejections (malformed escapes everywhere; most `%`-escaped ASCII in
hosts; reserved characters appearing literally in hosts and zones;
`+` becomes a space only in query components). -/
def unescapeChars : List Char → UrlEncoding → Except GoError (List Char)
  | [], _ => .ok []
  | c :: cs, mode =>
    if c = '%' then
      match cs with
      | h₁ :: h₂ :: rest =>
        match hexVal h₁, hexVal h₂ with
        | some v₁, some v₂ =>
          if mode = .host ∧ v₁ < 8 ∧ ¬(h₁ = '2' ∧ h₂ = '5') then
            .error (escapeErr (String.mk ['%', h₁, h₂]))
          else if mode = .zone ∧ ¬(h₁ = '2' ∧ h₂ = '5') ∧
              Char.ofNat (v₁ * 16 + v₂) ≠ ' ' ∧
              shouldEscape (Char.ofNat (v₁ * 16 + v₂)) .host then
            .error (escapeErr (String.mk ['%', h₁, h₂]))
          else
            match unescapeChars rest mode with
            | .ok out => .ok (Char.ofNat (v₁ * 16 + v₂) :: out)
            | .error e => .error e
        | _, _ => .error (escapeErr (String.mk ('%' :: cs.take 2)))
      | _ => .error (escapeErr (String.mk ('%' :: cs.take 2)))
    else if c = '+' then
      match unescapeChars cs mode with
      | .ok out => .ok ((if mode = .queryComponent then ' ' else '+') :: out)
      | .error e => .error e
    else
      if (mode = .host ∨ mode = .zone) ∧ c.toNat < 0x80 ∧ shouldEscape c mode then
        .error (invalidHostCharErr c)
      else
        match unescapeChars cs mode with
        | .ok out => .ok (c :: out)
        | .error e => .error e

/-- Upper-case hex digit, as `escape` emits. -/
def hexUpperDigit (n : Nat) : Char :=
  if n < 10 then Char.ofNat ('0'.toNat + n) else Char.ofNat ('A'.toNat + n - 10)

/-- `escape(s, mode)` of `net/url` (each character treated as one byte;
all strings it is applied to here are ASCII): a space becomes `+` in
query components, other reserved characters become `%XX`. -/
def escapeChars : List Char → UrlEncoding → List Char
  | [], _ => []
  | c :: cs, mode =>
    (if shouldEscape c mode then
      if c = ' ' ∧ mode = .queryComponent then ['+']
      else ['%', hexUpperDigit (c.toNat / 16), hexUpperDigit (c.toNat % 16)]
    else [c]) ++ escapeChars cs mode

/-- `*url.URL`.  The Go field `Opaque` is named `opq` here (`opaque` is a
reserved word in this development). -/
structure URL where
  scheme : String := ""
  opq : String := ""
  user : Option GoUserinfo := none
  host : String := ""
  path : String := ""
  rawPath : String := ""
  forceQuery : Bool := false
  rawQuery : String := ""
  fragment : String := ""
  rawFragment : String := ""
deriving DecidableEq, Repr

/-- Index of the first occurrence of a character (`strings.Index` for a
one-character pattern). -/
def charIndex : List Char → Char → Option Nat
  | [], _ => none
  | x :: xs, c => if x = c then some 0 else (charIndex xs c).map (· + 1)

/-- Index of the last occurrence of a character (`strings.LastIndex` for
a one-character pattern). -/
def charLastIndex (s : List Char) (c : Char) : Option Nat :=
  (charIndex s.reverse c).map (fun i => s.length - 1 - i)

/-- Index of the first occurrence of a substring (`strings.Index`). -/
def subIndex : List Char → List Char → Option Nat
  | [], pat => if pat = [] then some 0 else none
  | c :: cs, pat =>
    if pat.isPrefixOf (c :: cs) then some 0 else (subIndex cs pat).map (· + 1)

/-- The `split(s, c, cutc)` helper of `net/url`: split at the first
occurrence of `c`, dropping it iff `cutc`; without an occurrence the
second part is empty. -/
def splitOnceChar (cutc : Bool) (c : Char) : List Char → List Char × List Char
  | [] => ([], [])
  | x :: xs =>
    if x = c then ([], if cutc then xs else x :: xs)
    else
      let r := splitOnceChar cutc c xs
      (x :: r.1, r.2)

/-- `stringContainsCTLByte`: any byte below 0x20 or equal to 0x7f. -/
def containsCTLByte (s : List Char) : Bool :=
  s.any (fun c => decide (c.toNat < 0x20) || decide (c.toNat = 0x7f))

/-- The loop of `getScheme`: `acc` holds the characters scanned so far
(`acc = []` exactly when the loop is at index 0). -/
def getSchemeLoop (orig : List Char) : List Char → List Char → Except GoError (List Char × List Char)
  | _, [] => .ok ([], orig)
  | acc, c :: cs =>
    if ('a' ≤ c ∧ c ≤ 'z') ∨ ('A' ≤ c ∧ c ≤ 'Z') then getSchemeLoop orig (acc ++ [c]) cs
    else if ('0' ≤ c ∧ c ≤ '9') ∨ c = '+' ∨ c = '-' ∨ c = '.' then
      if acc = [] then .ok ([], orig) else getSchemeLoop orig (acc ++ [c]) cs
    else if c = ':' then
      if acc = [] then .error (.simple "missing protocol scheme")
      else .ok (acc, cs)
    else .ok ([], orig)

/-- `getScheme` of `net/url`: split a leading `scheme:`; a string with no
scheme comes back whole with an empty scheme. -/
def getScheme (s : List Char) : Except GoError (List Char × List Char) :=
  getSchemeLoop s [] s

/-- `validOptionalPort`: empty, or `:` followed by digits only. -/
def validOptionalPort : List Char → Bool
  | [] => true
  | c :: rest => c == ':' && rest.all Char.isDigit

/-- One character of `validUserinfo`. -/
def validUserinfoChar (c : Char) : Bool :=
  if ('A' ≤ c ∧ c ≤ 'Z') ∨ ('a' ≤ c ∧ c ≤ 'z') ∨ ('0' ≤ c ∧ c ≤ '9') then true
  else if c = '-' ∨ c = '.' ∨ c = '_' ∨ c = ':' ∨ c = '~' ∨ c = '!' ∨ c = '$' ∨
      c = '&' ∨ c = '\'' ∨ c = '(' ∨ c = ')' ∨ c = '*' ∨ c = '+' ∨ c = ',' ∨
      c = ';' ∨ c = '=' ∨ c = '%' ∨ c = '@' then true
  else false

/-- `validUserinfo` of `net/url`. -/
def validUserinfo (s : List Char) : Bool := s.all validUserinfoChar

/-- `parseHost` of `net/url`: bracketed IPv6 hosts (with optional
`%25`-zone), optional `:port` validation, then host-mode unescaping. -/
def parseHost (host : List Char) : Except GoError (List Char) :=
  match host with
  | '[' :: _ =>
    match charLastIndex host ']' with
    | none => .error (.simple "missing ']' in host")
    | some i =>
      let colonPort := host.drop (i + 1)
      if ¬ validOptionalPort colonPort then
        .error (.simple ("invalid port " ++ goQuote (String.mk colonPort) ++ " after host"))
      else
        match subIndex (host.take i) ['%', '2', '5'] with
        | some z =>
          match unescapeChars (host.take z) .host with
          | .error e => .error e
          | .ok h₁ =>
            match unescapeChars ((host.take i).drop z) .zone with
            | .error e => .error e
            | .ok h₂ =>
              match unescapeChars (host.drop i) .host with
              | .error e => .error e
              | .ok h₃ => .ok (h₁ ++ h₂ ++ h₃)
        | none =>
          unescapeChars host .host
  | _ =>
    match charLastIndex host ':' with
    | some i =>
      let colonPort := host.drop i
      if ¬ validOptionalPort colonPort then
        .error (.simple ("invalid port " ++ goQuote (String.mk colonPort) ++ " after host"))
      else unescapeChars host .host
    | none => unescapeChars host .host

/-- `parseAuthority` of `net/url`: split at the last `@`, parse the host,
validate and unescape the userinfo (with or without password). -/
def parseAuthority (authority : List Char) : Except GoError (Option GoUserinfo × List Char) :=
  match charLastIndex authority '@' with
  | none =>
    match parseHost authority with
    | .error e => .error e
    | .ok host => .ok (none, host)
  | some i =>
    match parseHost (authority.drop (i + 1)) with
    | .error e => .error e
    | .ok host =>
      let ui := authority.take i
      if ¬ validUserinfo ui then .error (.simple "net/url: invalid userinfo")
      else if ¬ ui.contains ':' then
        match unescapeChars ui .userPassword with
        | .error e => .error e
        | .ok u => .ok (some (urlUser (String.mk u)), host)
      else
        let sp := splitOnceChar true ':' ui
        match unescapeChars sp.1 .userPassword with
        | .error e => .error e
        | .ok un =>
          match unescapeChars sp.2 .userPassword with
          | .error e => .error e
          | .ok pw => .ok (some (urlUserPassword (String.mk un) (String.mk pw)), host)

/-- `(*URL).setPath`: path-mode unescape into `Path`; `RawPath` is kept
only when re-escaping would not reproduce the input. -/
def setPath (u : URL) (p : List Char) : Except GoError URL :=
  match unescapeChars p .path with
  | .error e => .error e
  | .ok path =>
    if escapeChars path .path = p then
      .ok { u with path := String.mk path, rawPath := "" }
    else
      .ok { u with path := String.mk path, rawPath := String.mk p }

/-- `(*URL).setFragment`, analogous to `setPath`. -/
def setFragment (u : URL) (f : List Char) : Except GoError URL :=
  match unescapeChars f .fragment with
  | .error e => .error e
  | .ok frag =>
    if escapeChars frag .fragment = f then
      .ok { u with fragment := String.mk frag, rawFragment := "" }
    else
      .ok { u with fragment := String.mk frag, rawFragment := String.mk f }

/-- Does the list start with `"//"`? -/
def leadsWith2Slash (l : List Char) : Bool :=
  match l with
  | a :: b :: _ => a == '/' && b == '/'
  | _ => false

/-- Does the list start with `"///"`? -/
def leadsWith3Slash (l : List Char) : Bool :=
  match l with
  | a :: b :: c :: _ => a == '/' && b == '/' && c == '/'
  | _ => false

/-- Does the list end with `'?'` (`strings.HasSuffix(rest, "?")`)? -/
def endsWithQM (l : List Char) : Bool :=
  match l.reverse with
  | c :: _ => c == '?'
  | [] => false

/-- The authority-and-path tail of `parse`: consume `//authority` when
applicable (`viaRequest` is `false` throughout, as called from
`url.Parse`), then set the path. -/
def parseAuthPath (scheme : List Char) (forceQuery : Bool) (rawQuery rest : List Char) :
    Except GoError URL :=
  let base : URL :=
    { scheme := String.mk scheme, forceQuery := forceQuery, rawQuery := String.mk rawQuery }
  if (scheme ≠ [] ∨ ¬ leadsWith3Slash rest) ∧ leadsWith2Slash rest then
    let a := rest.drop 2
    let ar :=
      match charIndex a '/' with
      | some i => (a.take i, a.drop i)
      | none => (a, ([] : List Char))
    match parseAuthority ar.1 with
    | .error e => .error e
    | .ok (user, host) =>
      setPath { base with user := user, host := String.mk host } ar.2
  else
    setPath base rest

/-- The part of `parse` after the query was split off: a rest starting
with `/` goes straight to authority-and-path handling; otherwise a
nonempty scheme makes the rest opaque, and a scheme-less rest whose first
path segment contains a colon is rejected. -/
def parseAfterQuery (scheme : List Char) (forceQuery : Bool) (rawQuery rest : List Char) :
    Except GoError URL :=
  match rest with
  | '/' :: _ => parseAuthPath scheme forceQuery rawQuery rest
  | _ =>
    if scheme ≠ [] then
      .ok { scheme := String.mk scheme, opq := String.mk rest,
            forceQuery := forceQuery, rawQuery := String.mk rawQuery }
    else
      let colonBad : Bool :=
        match charIndex rest ':' with
        | none => false
        | some ci =>
          match charIndex rest '/' with
          | none => true
          | some si => decide (ci < si)
      if colonBad then
        .error (.simple "first path segment in URL cannot contain colon")
      else parseAuthPath scheme forceQuery rawQuery rest

/-- `parse(rawURL, false)` of `net/url` (the fragment was already split
off by the caller): control-character check, `"*"` special case, scheme
splitting and lower-casing, `?` handling (`ForceQuery` for a single
trailing `?`), then the opaque / colon checks, authority and path. -/
def parseURLNoFrag (rawURL : List Char) : Except GoError URL :=
  if containsCTLByte rawURL then
    .error (.simple "net/url: invalid control character in URL")
  else if rawURL = ['*'] then .ok { path := "*" }
  else
    match getScheme rawURL with
    | .error e => .error e
    | .ok (schemeRaw, rest₀) =>
      let scheme := schemeRaw.map asciiLowerChar
      let trimmedQ := rest₀.take (rest₀.length - 1)
      if endsWithQM rest₀ ∧ ¬ trimmedQ.contains '?' then
        parseAfterQuery scheme true [] trimmedQ
      else
        let sp := splitOnceChar true '?' rest₀
        parseAfterQuery scheme false sp.2 sp.1

/-- `url.Parse`: split off the fragment, parse the rest, then set the
fragment; errors are wrapped as `*url.Error` with operation `parse`. -/
def urlParseChars (rawURL : List Char) : Except GoError URL :=
  let sp := splitOnceChar true '#' rawURL
  match parseURLNoFrag sp.1 with
  | .error e =>
    .error (.wrapf ("parse " ++ goQuote (String.mk sp.1) ++ ": " ++ e.message) e)
  | .ok u =>
    if sp.2 = [] then .ok u
    else
      match setFragment u sp.2 with
      | .error e =>
        .error (.wrapf ("parse " ++ goQuote (String.mk rawURL) ++ ": " ++ e.message) e)
      | .ok u₁ => .ok u₁

/-- `url.Parse` on a Lean string. -/
def urlParse (s : String) : Except GoError URL := urlParseChars s.data

/-- `Url(n)`: `String(n)`, then `url.Parse`; a `String` error is passed
through unchanged, a parse error is wrapped with the key. -/
def Url (w : World) (s : PkgState) (n : String) :
    PkgState × (Option URL × Option GoError) :=
  match StringVal w s n with
  | (s₁, (_, some err)) => (s₁, (none, some err))
  | (s₁, (v, none)) =>
    match urlParse v with
    | .error e => (s₁, (none, some (unmarshalWrapErr n "*url.URL" e)))
    | .ok u => (s₁, (some u, none))

/-! ### Generic decoders -/

/-- `InterfaceJson(n, v)` for a generic target: `Bytes`, then
`json.Unmarshal` into an empty interface, modelled as the parsed document
(a `Bytes` error passes through unchanged, a decode error is wrapped with
the key).  The `%T` of the caller-supplied target is rendered as
`interface`. -/
def InterfaceJson (w : World) (s : PkgState) (n : String) :
    PkgState × (Option Json × Option GoError) :=
  match Bytes w s n with
  | (s₁, (_, some err)) => (s₁, (none, some err))
  | (s₁, (b, none)) =>
    match jsonParse (b.getD "") with
    | none => (s₁, (none, some (unmarshalWrapErr n "interface" jsonSyntaxErr)))
    | some v => (s₁, (some v, none))

/-- `InterfaceYaml(n, v)` for a generic target: `Bytes`, then
`yaml.Unmarshal`.  The YAML decoder (`gopkg.in/yaml.v2`) is an external
collaborator used as a black box; it is abstracted as the parameter
`yamlU`.  A `Bytes` error passes through unchanged; a decode error is
wrapped with the key. -/
def InterfaceYaml (yamlU : String → Except GoError Json) (w : World) (s : PkgState)
    (n : String) : PkgState × (Option Json × Option GoError) :=
  match Bytes w s n with
  | (s₁, (_, some err)) => (s₁, (none, some err))
  | (s₁, (b, none)) =>
    match yamlU (b.getD "") with
    | .error e => (s₁, (none, some (unmarshalWrapErr n "interface" e)))
    | .ok v => (s₁, (some v, none))

/-! ### Reachable states and concrete worlds used by the witnesses -/

/-- The package states a process can be in: the initial state, or the
state after the once guard has fired (every accessor and every further
`Load` leaves the latter unchanged). -/
def Reached (w : World) (s : PkgState) : Prop :=
  s = initState ∨ s = loadOnce w initState

/-! ### The flattened scan

For reasoning about duplicates across directories the two nested loops of
`Load` are related to a single loop over the flattened list of
`(directory, entry)` pairs. -/

/-- The two nested loops of `Load` as one loop over `(directory, entry)`
pairs; its body is that of `loadEntries` with the entry's own directory. -/
def loadFlat : List (String × Entry) → Store → Except GoError Store
  | [], acc => .ok acc
  | (p, e) :: rest, acc =>
    if e.isDir then loadFlat rest acc
    else
      let b := entryKey p e
      if (storeGet acc b).isSome then .error (dupNameErr b)
      else
        match e.content with
        | none => loadFlat rest acc
        | some d => loadFlat rest (acc ++ [(b, d)])

/-- The flattened listing of the given directories, pairing each entry
with its directory (directories whose listing fails contribute nothing;
the flattening is only related to `loadDirs` when every listing
succeeds). -/
def scanOf (w : World) : List String → List (String × Entry)
  | [] => []
  | p :: ps =>
    (match w.fs p with
     | .ok es => es.map (fun e => (p, e))
     | .error _ => []) ++ scanOf w ps

/-! ### Characters of a "bare" URL string

A concrete alphabet formalising the spec's "bare string with no scheme":
ASCII alphanumerics plus the characters `url.Parse` leaves unescaped in a
path and that carry no URL structure (so no `:`, `/`, `?`, `#`, `%`). -/

def bareChars : List Char :=
  "0123456789abcdefghijklmnopqrstuvwxyzABCDEFGHIJKLMNOPQRSTUVWXYZ-_.~$&+,;=@".data

/-! ### Concrete worlds used by witnesses and counterexamples -/

/-- Unset environment variable, empty `DefaultPath`, no readable
directory anywhere. -/
def cfgWorldC10 : World := ⟨none, "", fun _ => .error .errNotExist⟩

/-- A search path whose single directory cannot be listed. -/
def cfgWorldC2 : World :=
  ⟨some "missing", "", fun _ => .error (.simple "open missing: no such file or directory")⟩

/-- One directory with one readable file. -/
def cfgWorldC4 : World :=
  ⟨some "d", "", fun p => if p = "d" then .ok [⟨"a", false, some "x"⟩] else .error .errNotExist⟩

/-- One directory with one readable file (for the missing-key witness). -/
def cfgWorldC5 : World :=
  ⟨some "d", "", fun p => if p = "d" then .ok [⟨"a", false, some "x"⟩] else .error .errNotExist⟩

/-- A search path whose single directory cannot be listed. -/
def cfgWorldC6 : World := ⟨some "d", "", fun _ => .error (.simple "boom")⟩

/-- One directory with a readable file and a subdirectory. -/
def cfgWorldC7 : World :=
  ⟨some "d", "",
   fun p => if p = "d" then .ok [⟨"f", false, some "v"⟩, ⟨"sub", true, none⟩]
            else .error .errNotExist⟩

/-- Two directories sharing the base name `a`; the earlier file's read
fails, the later one is readable. -/
def cfgWorldC9 : World :=
  ⟨some "d1:d2", "",
   fun p =>
     if p = "d1" then .ok [⟨"a", false, none⟩]
     else if p = "d2" then .ok [⟨"a", false, some "x"⟩]
     else .error .errNotExist⟩

/-- Two files sharing the base name `a`, the earlier unreadable — the
configuration under which the load nevertheless succeeds. -/
def cfgWorldC1cex : World :=
  ⟨some "d1:d2", "",
   fun p =>
     if p = "d1" then .ok [⟨"a", false, none⟩]
     else if p = "d2" then .ok [⟨"a", false, some "x"⟩]
     else .error .errNotExist⟩

/-- Two readable files sharing the base name `a` in different
directories. -/
def cfgWorldC1dup : World :=
  ⟨some "d1:d2", "",
   fun p =>
     if p = "d1" then .ok [⟨"a", false, some "y"⟩]
     else if p = "d2" then .ok [⟨"a", false, some "x"⟩]
     else .error .errNotExist⟩

/-- One file `ui` holding the JSON object `\x7b\x7d` (no `username`
member). -/
def cfgWorldC3cex : World :=
  ⟨some "d", "",
   fun p => if p = "d" then .ok [⟨"ui", false, some "\x7b\x7d"⟩] else .error .errNotExist⟩

/-- Four files: a username-only JSON object, a username+password JSON
object, raw number text, and JSON `null`. -/
def cfgWorldC3 : World :=
  ⟨some "d", "",
   fun p =>
     if p = "d" then
       .ok [⟨"u1", false, some "\x7b\"username\":\"user\"\x7d"⟩,
            ⟨"u2", false, some "\x7b\"username\":\"user\",\"password\":\"pass\"\x7d"⟩,
            ⟨"u3", false, some "1234567890"⟩,
            ⟨"u4", false, some "null"⟩]
     else .error .errNotExist⟩

/-- Two files with URL text: bare digits and an absolute URL with a
query. -/
def cfgWorldC8 : World :=
  ⟨some "d", "",
   fun p =>
     if p = "d" then
       .ok [⟨"url1", false, some "1234567890"⟩,
            ⟨"url2", false, some "http://google.com?q=tuukka"⟩]
     else .error .errNotExist⟩

end Config

/-! ## Lemmas about the once guard and the accessors -/

namespace Config

theorem loadOnce_of_done (w : World) (s : PkgState) (h : s.onceDone = true) :
    loadOnce w s = s := by
  simp [loadOnce, h]

theorem loadOnce_onceDone (w : World) (s : PkgState) : (loadOnce w s).onceDone = true := by
  unfold loadOnce
  split
  · next h => exact h
  · split <;> rfl

theorem loadOnce_idem (w : World) (s : PkgState) :
    loadOnce w (loadOnce w s) = loadOnce w s :=
  loadOnce_of_done w _ (loadOnce_onceDone w s)

theorem reached_loadOnce {w : World} {s : PkgState} (h : Reached w s) :
    loadOnce w s = loadOnce w initState := by
  rcases h with h | h
  · rw [h]
  · rw [h, loadOnce_idem]

theorem Load_fst (w : World) (s : PkgState) : (Load w s).1 = loadOnce w s := by
  unfold Load
  cases h : (loadOnce w s).pkgErr <;> simp [h]

theorem loadIter_of_done (w : World) (k : Nat) (s : PkgState) (h : s.onceDone = true) :
    loadIter w k s = s := by
  induction k with
  | zero => rfl
  | succ k ih =>
    show loadIter w k (Load w s).1 = s
    rw [Load_fst, loadOnce_of_done w s h]
    exact ih

theorem loadIter_succ_init (w : World) (k : Nat) :
    loadIter w (k + 1) initState = loadOnce w initState := by
  show loadIter w k (Load w initState).1 = _
  rw [Load_fst]
  exact loadIter_of_done w k _ (loadOnce_onceDone w initState)

theorem loadOnce_init_ok {w : World} {m : Store} (h : loadResult w = .ok m) :
    loadOnce w initState = ⟨true, some m, none, 1⟩ := by
  simp [loadOnce, initState, h]

theorem loadOnce_init_error {w : World} {e : GoError} (h : loadResult w = .error e) :
    loadOnce w initState = ⟨true, none, some e, 1⟩ := by
  simp [loadOnce, initState, h]

theorem Load_snd_of_ok {w : World} {m : Store} (h : loadResult w = .ok m) {s : PkgState}
    (hs : Reached w s) : (Load w s).2 = none := by
  have h₁ : loadOnce w s = ⟨true, some m, none, 1⟩ :=
    (reached_loadOnce hs).trans (loadOnce_init_ok h)
  simp [Load, h₁]

theorem Load_snd_of_error {w : World} {e : GoError} (h : loadResult w = .error e)
    {s : PkgState} (hs : Reached w s) : (Load w s).2 = some (loadWrapErr e) := by
  have h₁ : loadOnce w s = ⟨true, none, some e, 1⟩ :=
    (reached_loadOnce hs).trans (loadOnce_init_error h)
  simp [Load, h₁]

theorem Bytes_ok_found {w : World} {m : Store} {n v : String} {s : PkgState}
    (h : loadResult w = .ok m) (hs : Reached w s) (hv : storeGet m n = some v) :
    (Bytes w s n).2 = (some v, none) := by
  have h₁ : loadOnce w s = ⟨true, some m, none, 1⟩ :=
    (reached_loadOnce hs).trans (loadOnce_init_ok h)
  simp [Bytes, Load, h₁, hv]

theorem Bytes_ok_missing {w : World} {m : Store} {n : String} {s : PkgState}
    (h : loadResult w = .ok m) (hs : Reached w s) (hv : storeGet m n = none) :
    (Bytes w s n).2 = (none, some .errNotExist) := by
  have h₁ : loadOnce w s = ⟨true, some m, none, 1⟩ :=
    (reached_loadOnce hs).trans (loadOnce_init_ok h)
  simp [Bytes, Load, h₁, hv]

theorem Bytes_of_error {w : World} {e : GoError} {n : String} {s : PkgState}
    (h : loadResult w = .error e) (hs : Reached w s) :
    (Bytes w s n).2 = (none, some (bytesWrapErr n (loadWrapErr e))) := by
  have h₁ : loadOnce w s = ⟨true, none, some e, 1⟩ :=
    (reached_loadOnce hs).trans (loadOnce_init_error h)
  simp [Bytes, Load, h₁]

theorem StringVal_ok_found {w : World} {m : Store} {n v : String} {s : PkgState}
    (h : loadResult w = .ok m) (hs : Reached w s) (hv : storeGet m n = some v) :
    (StringVal w s n).2 = (v, none) := by
  unfold StringVal
  cases hb : Bytes w s n with
  | mk s₁ r =>
    have : r = (some v, none) := by rw [← Bytes_ok_found h hs hv, hb]
    subst this
    rfl

theorem StringVal_ok_missing {w : World} {m : Store} {n : String} {s : PkgState}
    (h : loadResult w = .ok m) (hs : Reached w s) (hv : storeGet m n = none) :
    (StringVal w s n).2 = ("", some .errNotExist) := by
  unfold StringVal
  cases hb : Bytes w s n with
  | mk s₁ r =>
    have : r = (none, some .errNotExist) := by rw [← Bytes_ok_missing h hs hv, hb]
    subst this
    rfl

theorem StringVal_of_error {w : World} {e : GoError} {n : String} {s : PkgState}
    (h : loadResult w = .error e) (hs : Reached w s) :
    (StringVal w s n).2 = ("", some (bytesWrapErr n (loadWrapErr e))) := by
  unfold StringVal
  cases hb : Bytes w s n with
  | mk s₁ r =>
    have : r = (none, some (bytesWrapErr n (loadWrapErr e))) := by
      rw [← Bytes_of_error h hs, hb]
    subst this
    rfl

/-! ## Lemmas about the scan loops -/

theorem storeGet_append_of_some {m : Store} {k v : String} (b d : String)
    (h : storeGet m k = some v) : storeGet (m ++ [(b, d)]) k = some v := by
  induction m with
  | nil => simp [storeGet] at h
  | cons hd tl ih =>
    obtain ⟨k₁, v₁⟩ := hd
    by_cases hk : k₁ = k
    · simp [storeGet, hk] at h ⊢
      exact h
    · simp [storeGet, hk] at h ⊢
      exact ih h

theorem storeGet_append_of_none {m : Store} {k : String} (b d : String)
    (h : storeGet m k = none) :
    storeGet (m ++ [(b, d)]) k = if b = k then some d else none := by
  induction m with
  | nil => rfl
  | cons hd tl ih =>
    obtain ⟨k₁, v₁⟩ := hd
    by_cases hk : k₁ = k
    · simp [storeGet, hk] at h
    · simp [storeGet, hk] at h ⊢
      exact ih h

theorem loadFlat_mono :
    ∀ (l : List (String × Entry)) (acc out : Store), loadFlat l acc = .ok out →
      ∀ k v, storeGet acc k = some v → storeGet out k = some v := by
  intro l
  induction l with
  | nil =>
    intro acc out h k v hv
    cases h
    exact hv
  | cons pe rest ih =>
    intro acc out h k v hv
    obtain ⟨p, e⟩ := pe
    by_cases hd : e.isDir
    · exact ih _ _ (by simpa [loadFlat, hd] using h) k v hv
    · cases hsg : (storeGet acc (entryKey p e)).isSome with
      | true => simp [loadFlat, hd, hsg] at h
      | false =>
        cases hc : e.content with
        | none =>
          exact ih _ _ (by simpa [loadFlat, hd, hsg, hc] using h) k v hv
        | some d =>
          refine ih _ _ (by simpa [loadFlat, hd, hsg, hc] using h) k v ?_
          exact storeGet_append_of_some _ _ hv

theorem loadFlat_append :
    ∀ (l₁ l₂ : List (String × Entry)) (acc : Store),
      loadFlat (l₁ ++ l₂) acc =
        match loadFlat l₁ acc with
        | .ok m => loadFlat l₂ m
        | .error e => .error e := by
  intro l₁
  induction l₁ with
  | nil => intro l₂ acc; rfl
  | cons pe rest ih =>
    intro l₂ acc
    obtain ⟨p, e⟩ := pe
    by_cases hd : e.isDir
    · simpa [loadFlat, hd] using ih l₂ acc
    · cases hsg : (storeGet acc (entryKey p e)).isSome with
      | true => simp [loadFlat, hd, hsg]
      | false =>
        cases hc : e.content with
        | none => simpa [loadFlat, hd, hsg, hc] using ih l₂ acc
        | some d => simpa [loadFlat, hd, hsg, hc] using ih l₂ _

theorem loadFlat_fresh :
    ∀ (l : List (String × Entry)) (acc out : Store), loadFlat l acc = .ok out →
      ∀ p e, (p, e) ∈ l → e.isDir = false → storeGet acc (entryKey p e) = none := by
  intro l
  induction l with
  | nil => intro acc out _ p e hmem; cases hmem
  | cons pe rest ih =>
    intro acc out h p e hmem hdir
    obtain ⟨q, x⟩ := pe
    by_cases hd : x.isDir
    · rcases List.mem_cons.mp hmem with heq | hmem₂
      · cases heq; rw [hdir] at hd; cases hd
      · exact ih _ _ (by simpa [loadFlat, hd] using h) p e hmem₂ hdir
    · cases hsg : (storeGet acc (entryKey q x)).isSome with
      | true => simp [loadFlat, hd, hsg] at h
      | false =>
        rcases List.mem_cons.mp hmem with heq | hmem₂
        · cases heq
          exact Option.not_isSome_iff_eq_none.mp (by simp [hsg])
        · cases hc : x.content with
          | none => exact ih _ _ (by simpa [loadFlat, hd, hsg, hc] using h) p e hmem₂ hdir
          | some d =>
            have h₂ := ih _ _ (by simpa [loadFlat, hd, hsg, hc] using h) p e hmem₂ hdir
            cases hacc : storeGet acc (entryKey p e) with
            | none => rfl
            | some v =>
              have := storeGet_append_of_some (entryKey q x) d hacc
              rw [h₂] at this
              cases this

theorem loadFlat_stores :
    ∀ (l : List (String × Entry)) (acc out : Store), loadFlat l acc = .ok out →
      ∀ p e d, (p, e) ∈ l → e.isDir = false → e.content = some d →
        storeGet out (entryKey p e) = some d := by
  intro l
  induction l with
  | nil => intro acc out _ p e d hmem; cases hmem
  | cons pe rest ih =>
    intro acc out h p e d hmem hdir hcont
    obtain ⟨q, x⟩ := pe
    by_cases hd : x.isDir
    · rcases List.mem_cons.mp hmem with heq | hmem₂
      · cases heq; rw [hdir] at hd; cases hd
      · exact ih _ _ (by simpa [loadFlat, hd] using h) p e d hmem₂ hdir hcont
    · cases hsg : (storeGet acc (entryKey q x)).isSome with
      | true => simp [loadFlat, hd, hsg] at h
      | false =>
        rcases List.mem_cons.mp hmem with heq | hmem₂
        · cases heq
          have hnone : storeGet acc (entryKey p e) = none :=
            Option.not_isSome_iff_eq_none.mp (by simp [hsg])
          have h₁ : loadFlat rest (acc ++ [(entryKey p e, d)]) = .ok out := by
            simpa [loadFlat, hd, hsg, hcont] using h
          refine loadFlat_mono rest _ out h₁ _ d ?_
          rw [storeGet_append_of_none _ _ hnone]
          simp
        · cases hc : x.content with
          | none => exact ih _ _ (by simpa [loadFlat, hd, hsg, hc] using h) p e d hmem₂ hdir hcont
          | some dx => exact ih _ _ (by simpa [loadFlat, hd, hsg, hc] using h) p e d hmem₂ hdir hcont

theorem loadFlat_complete :
    ∀ (l : List (String × Entry)) (acc out : Store), loadFlat l acc = .ok out →
      ∀ k v, storeGet out k = some v →
        storeGet acc k = some v ∨
          ∃ p e, (p, e) ∈ l ∧ e.isDir = false ∧ e.content = some v ∧ entryKey p e = k := by
  intro l
  induction l with
  | nil =>
    intro acc out h k v hv
    cases h
    exact Or.inl hv
  | cons pe rest ih =>
    intro acc out h k v hv
    obtain ⟨q, x⟩ := pe
    by_cases hd : x.isDir
    · rcases ih _ _ (by simpa [loadFlat, hd] using h) k v hv with hl | ⟨p, e, hmem, h₁, h₂, h₃⟩
      · exact Or.inl hl
      · exact Or.inr ⟨p, e, List.mem_cons_of_mem _ hmem, h₁, h₂, h₃⟩
    · cases hsg : (storeGet acc (entryKey q x)).isSome with
      | true => simp [loadFlat, hd, hsg] at h
      | false =>
        have hnone : storeGet acc (entryKey q x) = none :=
          Option.not_isSome_iff_eq_none.mp (by simp [hsg])
        cases hc : x.content with
        | none =>
          rcases ih _ _ (by simpa [loadFlat, hd, hsg, hc] using h) k v hv with
            hl | ⟨p, e, hmem, h₁, h₂, h₃⟩
          · exact Or.inl hl
          · exact Or.inr ⟨p, e, List.mem_cons_of_mem _ hmem, h₁, h₂, h₃⟩
        | some d =>
          rcases ih _ _ (by simpa [loadFlat, hd, hsg, hc] using h) k v hv with
            hl | ⟨p, e, hmem, h₁, h₂, h₃⟩
          · cases hacc : storeGet acc k with
            | some u =>
              rw [storeGet_append_of_some (entryKey q x) d hacc] at hl
              exact Or.inl hl
            | none =>
              rw [storeGet_append_of_none _ _ hacc] at hl
              by_cases hbk : entryKey q x = k
              · rw [if_pos hbk] at hl
                cases hl
                exact Or.inr ⟨q, x, List.mem_cons_self _ _, by simpa using hd, hc, hbk⟩
              · rw [if_neg hbk] at hl
                cases hl
          · exact Or.inr ⟨p, e, List.mem_cons_of_mem _ hmem, h₁, h₂, h₃⟩

theorem loadFlat_error_shape :
    ∀ (l : List (String × Entry)) (acc : Store) (e : GoError), loadFlat l acc = .error e →
      ∃ b, e = dupNameErr b := by
  intro l
  induction l with
  | nil => intro acc e h; cases h
  | cons pe rest ih =>
    intro acc e h
    obtain ⟨q, x⟩ := pe
    by_cases hd : x.isDir
    · exact ih _ _ (by simpa [loadFlat, hd] using h)
    · cases hsg : (storeGet acc (entryKey q x)).isSome with
      | true =>
        refine ⟨entryKey q x, ?_⟩
        have : Except.error (dupNameErr (entryKey q x)) = (Except.error e : Except GoError Store) := by
          simpa [loadFlat, hd, hsg] using h
        cases this
        rfl
      | false =>
        cases hc : x.content with
        | none => exact ih _ _ (by simpa [loadFlat, hd, hsg, hc] using h)
        | some d => exact ih _ _ (by simpa [loadFlat, hd, hsg, hc] using h)

theorem loadEntries_eq_flat (p : String) :
    ∀ (es : List Entry) (acc : Store),
      loadEntries p es acc = loadFlat (es.map (fun e => (p, e))) acc := by
  intro es
  induction es with
  | nil => intro acc; rfl
  | cons e rest ih =>
    intro acc
    by_cases hd : e.isDir
    · simpa [loadEntries, loadFlat, hd] using ih acc
    · cases hsg : (storeGet acc (entryKey p e)).isSome with
      | true => simp [loadEntries, loadFlat, hd, hsg]
      | false =>
        cases hc : e.content with
        | none => simpa [loadEntries, loadFlat, hd, hsg, hc] using ih acc
        | some d => simpa [loadEntries, loadFlat, hd, hsg, hc] using ih _

theorem loadDirs_listings_ok (w : World) :
    ∀ (ps : List String) (acc out : Store), loadDirs w ps acc = .ok out →
      ∀ p ∈ ps, ∃ es, w.fs p = .ok es := by
  intro ps
  induction ps with
  | nil => intro acc out _ p hp; cases hp
  | cons q rest ih =>
    intro acc out h p hp
    cases hfs : w.fs q with
    | error e => simp [loadDirs, hfs] at h
    | ok es =>
      rcases List.mem_cons.mp hp with rfl | hp₂
      · exact ⟨es, hfs⟩
      · cases hle : loadEntries q es acc with
        | error e => simp [loadDirs, hfs, hle] at h
        | ok acc₁ =>
          exact ih acc₁ out (by simpa [loadDirs, hfs, hle] using h) p hp₂

theorem loadDirs_eq_flat (w : World) :
    ∀ (ps : List String) (acc : Store), (∀ p ∈ ps, ∃ es, w.fs p = .ok es) →
      loadDirs w ps acc = loadFlat (scanOf w ps) acc := by
  intro ps
  induction ps with
  | nil => intro acc _; rfl
  | cons q rest ih =>
    intro acc hok
    obtain ⟨es, hes⟩ := hok q (List.mem_cons_self _ _)
    have hrest : ∀ p ∈ rest, ∃ es₁, w.fs p = .ok es₁ :=
      fun p hp => hok p (List.mem_cons_of_mem _ hp)
    have happ := loadFlat_append (es.map (fun e => (q, e))) (scanOf w rest) acc
    cases hle : loadEntries q es acc with
    | error e =>
      have hfe : loadFlat (es.map (fun e => (q, e))) acc = .error e := by
        rw [← loadEntries_eq_flat]; exact hle
      simp [loadDirs, scanOf, hes, hle, happ, hfe]
    | ok acc₁ =>
      have hfe : loadFlat (es.map (fun e => (q, e))) acc = .ok acc₁ := by
        rw [← loadEntries_eq_flat]; exact hle
      simp only [loadDirs, scanOf, hes, hle, happ, hfe]
      exact ih acc₁ hrest

theorem scanOf_mem (w : World) :
    ∀ (ps : List String) (p : String) (e : Entry),
      (p, e) ∈ scanOf w ps ↔ ∃ es, p ∈ ps ∧ w.fs p = .ok es ∧ e ∈ es := by
  intro ps
  induction ps with
  | nil =>
    intro p e
    constructor
    · intro h; cases h
    · rintro ⟨es, hp, _, _⟩; cases hp
  | cons q rest ih =>
    intro p e
    constructor
    · intro h
      rcases List.mem_append.mp h with h₁ | h₂
      · cases hfs : w.fs q with
        | error err => rw [hfs] at h₁; cases h₁
        | ok es =>
          rw [hfs] at h₁
          rcases List.mem_map.mp h₁ with ⟨x, hx, hxe⟩
          cases hxe
          exact ⟨es, List.mem_cons_self _ _, hfs, hx⟩
      · rcases (ih p e).mp h₂ with ⟨es, hp, hfs, he⟩
        exact ⟨es, List.mem_cons_of_mem _ hp, hfs, he⟩
    · rintro ⟨es, hp, hfs, he⟩
      rcases List.mem_cons.mp hp with rfl | hp₂
      · refine List.mem_append.mpr (Or.inl ?_)
        rw [hfs]
        exact List.mem_map.mpr ⟨e, he, rfl⟩
      · exact List.mem_append.mpr (Or.inr ((ih p e).mpr ⟨es, hp₂, hfs, he⟩))

theorem loadDirs_error_shape (w : World) :
    ∀ (ps : List String) (acc : Store) (e : GoError), loadDirs w ps acc = .error e →
      (∃ p c, p ∈ ps ∧ w.fs p = .error c ∧ e = dirReadErr p c) ∨ ∃ b, e = dupNameErr b := by
  intro ps
  induction ps with
  | nil => intro acc e h; cases h
  | cons q rest ih =>
    intro acc e h
    cases hfs : w.fs q with
    | error c =>
      have : Except.error (dirReadErr q c) = (Except.error e : Except GoError Store) := by
        simpa [loadDirs, hfs] using h
      cases this
      exact Or.inl ⟨q, c, List.mem_cons_self _ _, hfs, rfl⟩
    | ok es =>
      cases hle : loadEntries q es acc with
      | error e₁ =>
        have he₁ : e₁ = e := by
          have : Except.error e₁ = (Except.error e : Except GoError Store) := by
            simpa [loadDirs, hfs, hle] using h
          cases this
          rfl
        subst he₁
        rw [loadEntries_eq_flat] at hle
        exact Or.inr (loadFlat_error_shape _ _ _ hle)
      | ok acc₁ =>
        rcases ih acc₁ e (by simpa [loadDirs, hfs, hle] using h) with ⟨p, c, hp, hfs₁, he⟩ | hb
        · exact Or.inl ⟨p, c, List.mem_cons_of_mem _ hp, hfs₁, he⟩
        · exact Or.inr hb

theorem loadFlat_append_ok_split {l₁ l₂ : List (String × Entry)} {acc out : Store}
    (h : loadFlat (l₁ ++ l₂) acc = .ok out) :
    ∃ m₁, loadFlat l₁ acc = .ok m₁ ∧ loadFlat l₂ m₁ = .ok out := by
  rw [loadFlat_append] at h
  cases h₁ : loadFlat l₁ acc with
  | error e => rw [h₁] at h; simp at h
  | ok m₁ =>
    rw [h₁] at h
    exact ⟨m₁, rfl, by simpa using h⟩

theorem Userinfo_of_error {w : World} {e : GoError} {n : String} {s : PkgState}
    (h : loadResult w = .error e) (hs : Reached w s) :
    (Userinfo w s n).2 = (none, some (bytesWrapErr n (loadWrapErr e))) := by
  unfold Userinfo
  cases hb : Bytes w s n with
  | mk s₁ r =>
    have : r = (none, some (bytesWrapErr n (loadWrapErr e))) := by
      rw [← Bytes_of_error h hs, hb]
    subst this
    rfl

theorem Url_of_error {w : World} {e : GoError} {n : String} {s : PkgState}
    (h : loadResult w = .error e) (hs : Reached w s) :
    (Url w s n).2 = (none, some (bytesWrapErr n (loadWrapErr e))) := by
  unfold Url
  cases hb : StringVal w s n with
  | mk s₁ r =>
    have : r = ("", some (bytesWrapErr n (loadWrapErr e))) := by
      rw [← StringVal_of_error h hs, hb]
    subst this
    rfl

theorem InterfaceJson_of_error {w : World} {e : GoError} {n : String} {s : PkgState}
    (h : loadResult w = .error e) (hs : Reached w s) :
    (InterfaceJson w s n).2 = (none, some (bytesWrapErr n (loadWrapErr e))) := by
  unfold InterfaceJson
  cases hb : Bytes w s n with
  | mk s₁ r =>
    have : r = (none, some (bytesWrapErr n (loadWrapErr e))) := by
      rw [← Bytes_of_error h hs, hb]
    subst this
    rfl

theorem InterfaceYaml_of_error (yamlU : String → Except GoError Json) {w : World}
    {e : GoError} {n : String} {s : PkgState}
    (h : loadResult w = .error e) (hs : Reached w s) :
    (InterfaceYaml yamlU w s n).2 = (none, some (bytesWrapErr n (loadWrapErr e))) := by
  unfold InterfaceYaml
  cases hb : Bytes w s n with
  | mk s₁ r =>
    have : r = (none, some (bytesWrapErr n (loadWrapErr e))) := by
      rw [← Bytes_of_error h hs, hb]
    subst this
    rfl

theorem Userinfo_of_stored {w : World} {m : Store} {n b : String} {s : PkgState}
    (hld : loadResult w = .ok m) (hb : storeGet m n = some b) (hs : Reached w s) :
    (Userinfo w s n).2 =
      (match jsonUnmarshalUserinfo b with
       | .error e => (none, some (unmarshalWrapErr n "*url.Userinfo" e))
       | .ok ui =>
         if ui.password = "" then (some (urlUser ui.username), none)
         else (some (urlUserPassword ui.username ui.password), none)) := by
  unfold Userinfo
  cases hby : Bytes w s n with
  | mk s₁ r =>
    have : r = (some b, none) := by rw [← Bytes_ok_found hld hs hb, hby]
    subst this
    cases hj : jsonUnmarshalUserinfo b with
    | error e => simp [hj]
    | ok ui => by_cases hpw : ui.password = "" <;> simp [hj, hpw]

theorem Url_of_stored {w : World} {m : Store} {n b : String} {s : PkgState}
    (hld : loadResult w = .ok m) (hb : storeGet m n = some b) (hs : Reached w s) :
    (Url w s n).2 =
      (match urlParse b with
       | .error e => (none, some (unmarshalWrapErr n "*url.URL" e))
       | .ok u => (some u, none)) := by
  unfold Url
  cases hby : StringVal w s n with
  | mk s₁ r =>
    have : r = (b, none) := by rw [← StringVal_ok_found hld hs hb, hby]
    subst this
    cases hu : urlParse b with
    | error e => simp [hu]
    | ok u => simp [hu]

/-! ## The claims -/

/-- Claim C10: when the resolved search path splits into zero directory
entries (for example, the environment variable is unset and `DefaultPath`
is empty), `Load` succeeds and publishes an empty store, and every
subsequent `Bytes` call returns the not-found failure
(`os.ErrNotExist`), not a load error. -/
theorem c10_empty_search_path (w : World) (n : String) (h : pathValue w = "") :
    (Load w initState).2 = none ∧
    (loadOnce w initState).pkgVal = some [] ∧
    ∀ s, Reached w s → (Bytes w s n).2 = (none, some .errNotExist) := by
  have hres : loadResult w = .ok [] := by
    unfold loadResult searchDirs
    rw [h]
    rfl
  refine ⟨Load_snd_of_ok hres (Or.inl rfl), ?_, ?_⟩
  · rw [loadOnce_init_ok hres]
  · intro s hs
    exact Bytes_ok_missing hres hs rfl

/-- Witness for C10 at a concrete world with an unset environment
variable and an empty default path. -/
theorem c10_witness :
    (Bytes cfgWorldC10 initState "missing").2 = (none, some GoError.errNotExist) :=
  (c10_empty_search_path cfgWorldC10 "missing" rfl).2.2 initState (Or.inl rfl)

/-- Claim C5: after a successful load, `Bytes` and `String` on a key
absent from the store return the not-found failure (`os.ErrNotExist`)
together with the zero value (`nil` bytes / empty string), never a
successful empty result. -/
theorem c5_missing_key (w : World) (m : Store) (n : String) (s : PkgState)
    (hld : loadResult w = .ok m) (hmiss : storeGet m n = none) (hs : Reached w s) :
    (Bytes w s n).2 = (none, some .errNotExist) ∧
    (StringVal w s n).2 = ("", some .errNotExist) :=
  ⟨Bytes_ok_missing hld hs hmiss, StringVal_ok_missing hld hs hmiss⟩

/-- Witness for C5 at a concrete world whose store holds only the key
`a`. -/
theorem c5_witness :
    (Bytes cfgWorldC5 initState "b").2 = (none, some .errNotExist) ∧
    (StringVal cfgWorldC5 initState "b").2 = ("", some .errNotExist) :=
  c5_missing_key cfgWorldC5 [("a", "x")] "b" initState rfl rfl (Or.inl rfl)

/-- Claim C2: once the first `Load` execution records a fatal error,
every subsequent `Load` call returns the same error value (the recorded
error wrapped identically each time, hence unchanged in content and
message), the state never changes again, and the once body never reruns
(the run counter stays at 1). -/
theorem c2_error_replayed (w : World) (e : GoError) (k : Nat)
    (h : (loadOnce w initState).pkgErr = some e) :
    (Load w (loadIter w k initState)).2 = some (loadWrapErr e) ∧
    loadIter w (k + 1) initState = loadOnce w initState ∧
    (loadIter w (k + 1) initState).runs = 1 := by
  refine ⟨?_, loadIter_succ_init w k, ?_⟩
  · cases k with
    | zero => simp [loadIter, Load, h]
    | succ j =>
      rw [loadIter_succ_init w j]
      simp [Load, loadOnce_idem, h]
  · rw [loadIter_succ_init w k]
    cases hres : loadResult w with
    | ok m => rw [loadOnce_init_ok hres]
    | error e₁ => rw [loadOnce_init_error hres]

/-- Witness for C2 at a concrete world whose single search directory
cannot be listed: the third call still returns the wrapped recorded
error and the once body has run exactly once. -/
theorem c2_witness :
    (Load cfgWorldC2 (loadIter cfgWorldC2 2 initState)).2 =
      some (loadWrapErr (dirReadErr "missing"
        (GoError.simple "open missing: no such file or directory"))) ∧
    loadIter cfgWorldC2 3 initState = loadOnce cfgWorldC2 initState ∧
    (loadIter cfgWorldC2 3 initState).runs = 1 :=
  c2_error_replayed cfgWorldC2 _ 2 rfl

/-- Claim C4: `Load` is idempotent — for every `k ≥ 1`, calling it `k`
times leaves the same state (hence the same store contents and recorded
error) as calling it once, the `k+1`-st outcome equals the first, and
the scan-and-read work has executed exactly once. -/
theorem c4_load_idempotent (w : World) (k : Nat) (h : 1 ≤ k) :
    loadIter w k initState = loadIter w 1 initState ∧
    (Load w (loadIter w k initState)).2 = (Load w initState).2 ∧
    (loadIter w k initState).runs = 1 := by
  obtain ⟨j, rfl⟩ : ∃ j, k = j + 1 := ⟨k - 1, by omega⟩
  have h₁ : loadIter w (j + 1) initState = loadOnce w initState := loadIter_succ_init w j
  have h₀ : loadIter w 1 initState = loadOnce w initState := loadIter_succ_init w 0
  refine ⟨h₁.trans h₀.symm, ?_, ?_⟩
  · rw [h₁]
    simp [Load, loadOnce_idem]
  · rw [h₁]
    cases hres : loadResult w with
    | ok m => rw [loadOnce_init_ok hres]
    | error e => rw [loadOnce_init_error hres]

/-- Witness for C4 at a concrete world, with three calls against one. -/
theorem c4_witness :
    loadIter cfgWorldC4 3 initState = loadIter cfgWorldC4 1 initState ∧
    (Load cfgWorldC4 (loadIter cfgWorldC4 3 initState)).2 = (Load cfgWorldC4 initState).2 ∧
    (loadIter cfgWorldC4 3 initState).runs = 1 :=
  c4_load_idempotent cfgWorldC4 3 (by decide)

/-- Claim C6: a non-directory entry whose content read fails is skipped
silently — with its base name not already taken, processing it changes
nothing (no store entry, no error) — and the only errors `Load` can
record are directory-read errors and duplicate-name errors. -/
theorem c6_read_failure_skipped :
    (∀ (dir : String) (rest : List Entry) (acc : Store) (e : Entry),
        e.isDir = false → e.content = none → storeGet acc (entryKey dir e) = none →
        loadEntries dir (e :: rest) acc = loadEntries dir rest acc) ∧
    (∀ (w : World) (err : GoError), loadResult w = .error err →
        (∃ p c, err = dirReadErr p c) ∨ ∃ b, err = dupNameErr b) := by
  constructor
  · intro dir rest acc e hd hc hfresh
    simp [loadEntries, hd, hfresh, hc]
  · intro w err h
    rcases loadDirs_error_shape w _ _ _ h with ⟨p, c, _, _, he⟩ | hb
    · exact Or.inl ⟨p, c, he⟩
    · exact Or.inr hb

/-- Witness for C6: a concrete unreadable entry is skipped, and the
concrete load failure is a directory-read error. -/
theorem c6_witness :
    loadEntries "d" [⟨"a", false, none⟩] [] = loadEntries "d" [] [] ∧
    ((∃ p c, dirReadErr "d" (GoError.simple "boom") = dirReadErr p c) ∨
      ∃ b, dirReadErr "d" (GoError.simple "boom") = dupNameErr b) :=
  ⟨c6_read_failure_skipped.1 "d" [] [] ⟨"a", false, none⟩ rfl rfl rfl,
   c6_read_failure_skipped.2 cfgWorldC6 _ rfl⟩

/-- Claim C9: the duplicate check only collides against successfully
read files.  With an earlier file of the shared base name skipped
because its read failed, the later file of the same base name is read
and stored, the load succeeds, and the content is retrievable. -/
theorem c9_unreadable_no_collision (w : World) (p₁ p₂ n₁ n₂ d : String)
    (hdirs : searchDirs w = [p₁, p₂])
    (h₁ : w.fs p₁ = .ok [⟨n₁, false, none⟩])
    (h₂ : w.fs p₂ = .ok [⟨n₂, false, some d⟩])
    (_hkey : entryKey p₁ ⟨n₁, false, none⟩ = entryKey p₂ ⟨n₂, false, some d⟩) :
    loadResult w = .ok [(entryKey p₂ ⟨n₂, false, some d⟩, d)] ∧
    ∀ s, Reached w s → (Bytes w s (entryKey p₂ ⟨n₂, false, some d⟩)).2 = (some d, none) := by
  have hres : loadResult w = .ok [(entryKey p₂ ⟨n₂, false, some d⟩, d)] := by
    unfold loadResult
    rw [hdirs]
    simp [loadDirs, h₁, h₂, loadEntries, storeGet]
  refine ⟨hres, fun s hs => Bytes_ok_found hres hs ?_⟩
  simp [storeGet]

/-- Witness for C9 at the concrete two-directory world. -/
theorem c9_witness :
    loadResult cfgWorldC9 = .ok [("a", "x")] ∧
    (Bytes cfgWorldC9 initState "a").2 = (some "x", none) := by
  have h := c9_unreadable_no_collision cfgWorldC9 "d1" "d2" "a" "a" "x" rfl rfl rfl rfl
  exact ⟨h.1, h.2 initState (Or.inl rfl)⟩

/-- Claim C7: after a successful load, the content of every direct
regular-file entry whose read succeeded is retrievable through `Bytes`
at its base name, and every key of the store originates from such a
regular file — in particular a subdirectory entry never contributes a
key. -/
theorem c7_all_files_retrievable (w : World) (m : Store) (hld : loadResult w = .ok m) :
    (∀ p, p ∈ searchDirs w → ∀ es, w.fs p = .ok es → ∀ e, e ∈ es → e.isDir = false →
        ∀ d, e.content = some d → ∀ s, Reached w s →
          (Bytes w s (entryKey p e)).2 = (some d, none)) ∧
    (∀ k v, storeGet m k = some v →
        ∃ p es e, p ∈ searchDirs w ∧ w.fs p = .ok es ∧ e ∈ es ∧ e.isDir = false ∧
          e.content = some v ∧ entryKey p e = k) := by
  have hok : ∀ p ∈ searchDirs w, ∃ es, w.fs p = .ok es :=
    loadDirs_listings_ok w _ _ _ hld
  have hflat : loadFlat (scanOf w (searchDirs w)) [] = .ok m := by
    rw [← loadDirs_eq_flat w _ _ hok]
    exact hld
  constructor
  · intro p hp es hes e he hdir d hd s hs
    have hmem : (p, e) ∈ scanOf w (searchDirs w) :=
      (scanOf_mem w _ p e).mpr ⟨es, hp, hes, he⟩
    exact Bytes_ok_found hld hs (loadFlat_stores _ _ _ hflat p e d hmem hdir hd)
  · intro k v hv
    rcases loadFlat_complete _ _ _ hflat k v hv with h0 | ⟨p, e, hmem, h₁, h₂, h₃⟩
    · simp [storeGet] at h0
    · rcases (scanOf_mem w _ p e).mp hmem with ⟨es, hp, hes, he⟩
      exact ⟨p, es, e, hp, hes, he, h₁, h₂, h₃⟩

/-- Witness for C7 at a concrete world with one readable file and one
subdirectory. -/
theorem c7_witness :
    (Bytes cfgWorldC7 initState "f").2 = (some "v", none) ∧
    (∃ p es e, p ∈ searchDirs cfgWorldC7 ∧ cfgWorldC7.fs p = .ok es ∧ e ∈ es ∧
      e.isDir = false ∧ e.content = some "v" ∧ entryKey p e = "f") := by
  have h := c7_all_files_retrievable cfgWorldC7 [("f", "v")] rfl
  constructor
  · exact h.1 "d" (by decide) _ rfl ⟨"f", false, some "v"⟩ (by decide) rfl "v" rfl
      initState (Or.inl rfl)
  · exact h.2 "f" "v" rfl

/-- Claim C1, amended: a duplicate base name is fatal exactly when the
earlier file of that name was successfully read (an earlier unreadable
file does not occupy the name — see the counterexample).  First part:
whenever the flattened scan contains a successfully read file and,
later, a non-directory entry with the same base name (all listings
succeeding), the load fails with a duplicate-name error.  Second part:
after a load that failed with a duplicate-name error, no store is
published and every accessor — `Bytes`, `String`, `Userinfo`, `Url`,
`InterfaceJson`, `InterfaceYaml` — returns its zero value together with
an error wrapping the recorded load error, for any key, forever. -/
theorem c1_duplicate_name_poisons :
    (∀ (w : World) (l₁ l₂ l₃ : List (String × Entry)) (p q : String) (x y : Entry)
        (dx : String),
        scanOf w (searchDirs w) = l₁ ++ (p, x) :: l₂ ++ (q, y) :: l₃ →
        x.isDir = false → x.content = some dx → y.isDir = false →
        entryKey p x = entryKey q y →
        (∀ r ∈ searchDirs w, ∃ es, w.fs r = .ok es) →
        ∃ b, loadResult w = .error (dupNameErr b)) ∧
    (∀ (w : World) (b : String) (s : PkgState) (n : String)
        (yamlU : String → Except GoError Json),
        loadResult w = .error (dupNameErr b) → Reached w s →
        (loadOnce w s).pkgVal = none ∧
        (Load w s).2 = some (loadWrapErr (dupNameErr b)) ∧
        (Bytes w s n).2 = (none, some (bytesWrapErr n (loadWrapErr (dupNameErr b)))) ∧
        (StringVal w s n).2 = ("", some (bytesWrapErr n (loadWrapErr (dupNameErr b)))) ∧
        (Userinfo w s n).2 = (none, some (bytesWrapErr n (loadWrapErr (dupNameErr b)))) ∧
        (Url w s n).2 = (none, some (bytesWrapErr n (loadWrapErr (dupNameErr b)))) ∧
        (InterfaceJson w s n).2 = (none, some (bytesWrapErr n (loadWrapErr (dupNameErr b)))) ∧
        (InterfaceYaml yamlU w s n).2 =
          (none, some (bytesWrapErr n (loadWrapErr (dupNameErr b)))) ∧
        (bytesWrapErr n (loadWrapErr (dupNameErr b))).wraps (dupNameErr b)) := by
  constructor
  · intro w l₁ l₂ l₃ p q x y dx hscan hxdir hxc hydir hkey hok
    cases hres : loadResult w with
    | ok m =>
      exfalso
      have hflat : loadFlat (scanOf w (searchDirs w)) [] = .ok m := by
        rw [← loadDirs_eq_flat w _ _ hok]
        exact hres
      rw [hscan] at hflat
      obtain ⟨m₂, hfront, hback⟩ := loadFlat_append_ok_split hflat
      have hy : storeGet m₂ (entryKey q y) = none :=
        loadFlat_fresh _ _ _ hback q y (List.mem_cons_self _ _) hydir
      obtain ⟨m₁, h₁, h₂⟩ := loadFlat_append_ok_split hfront
      have hfresh : storeGet m₁ (entryKey p x) = none :=
        loadFlat_fresh _ _ _ h₂ p x (List.mem_cons_self _ _) hxdir
      have h₃ : loadFlat l₂ (m₁ ++ [(entryKey p x, dx)]) = .ok m₂ := by
        simpa [loadFlat, hxdir, hfresh, hxc] using h₂
      have hx₂ : storeGet (m₁ ++ [(entryKey p x, dx)]) (entryKey p x) = some dx := by
        rw [storeGet_append_of_none _ _ hfresh]
        simp
      have hx₃ : storeGet m₂ (entryKey p x) = some dx :=
        loadFlat_mono _ _ _ h₃ _ _ hx₂
      rw [hkey, hy] at hx₃
      cases hx₃
    | error e =>
      rcases loadDirs_error_shape w _ _ _ hres with ⟨r, c, hr, hfsr, _⟩ | ⟨b, hb⟩
      · obtain ⟨es, hes⟩ := hok r hr
        rw [hes] at hfsr
        cases hfsr
      · exact ⟨b, by rw [hb]⟩
  · intro w b s n yamlU hres hs
    refine ⟨?_, Load_snd_of_error hres hs, Bytes_of_error hres hs,
      StringVal_of_error hres hs, Userinfo_of_error hres hs, Url_of_error hres hs,
      InterfaceJson_of_error hres hs, InterfaceYaml_of_error yamlU hres hs, ?_⟩
    · rw [reached_loadOnce hs, loadOnce_init_error hres]
    · exact List.mem_cons_of_mem _ (List.mem_cons_of_mem _ (List.mem_cons_self _ _))

/-- Counterexample to C1 as frozen: in this world two files (in `d1` and
`d2`) share the base name `a`, yet because the earlier one's read fails
the load succeeds and the later file's content is retrievable — no
duplicate-name error is recorded. -/
theorem c1_counterexample :
    entryKey "d1" ⟨"a", false, none⟩ = entryKey "d2" ⟨"a", false, some "x"⟩ ∧
    scanOf cfgWorldC1cex (searchDirs cfgWorldC1cex) =
      [("d1", ⟨"a", false, none⟩), ("d2", ⟨"a", false, some "x"⟩)] ∧
    (Load cfgWorldC1cex initState).2 = none ∧
    (Bytes cfgWorldC1cex initState "a").2 = (some "x", none) :=
  ⟨rfl, rfl, rfl, rfl⟩

/-- Witness for C1 (amended) at a concrete world with two readable files
named `a`. -/
theorem c1_witness :
    (∃ b, loadResult cfgWorldC1dup = .error (dupNameErr b)) ∧
    ((loadOnce cfgWorldC1dup initState).pkgVal = none ∧
     (Load cfgWorldC1dup initState).2 = some (loadWrapErr (dupNameErr "a")) ∧
     (Bytes cfgWorldC1dup initState "k").2 =
       (none, some (bytesWrapErr "k" (loadWrapErr (dupNameErr "a")))) ∧
     (StringVal cfgWorldC1dup initState "k").2 =
       ("", some (bytesWrapErr "k" (loadWrapErr (dupNameErr "a")))) ∧
     (Userinfo cfgWorldC1dup initState "k").2 =
       (none, some (bytesWrapErr "k" (loadWrapErr (dupNameErr "a")))) ∧
     (Url cfgWorldC1dup initState "k").2 =
       (none, some (bytesWrapErr "k" (loadWrapErr (dupNameErr "a")))) ∧
     (InterfaceJson cfgWorldC1dup initState "k").2 =
       (none, some (bytesWrapErr "k" (loadWrapErr (dupNameErr "a")))) ∧
     (InterfaceYaml (fun _ => .ok .null) cfgWorldC1dup initState "k").2 =
       (none, some (bytesWrapErr "k" (loadWrapErr (dupNameErr "a")))) ∧
     (bytesWrapErr "k" (loadWrapErr (dupNameErr "a"))).wraps (dupNameErr "a")) := by
  constructor
  · refine c1_duplicate_name_poisons.1 cfgWorldC1dup [] [] [] "d1" "d2"
      ⟨"a", false, some "y"⟩ ⟨"a", false, some "x"⟩ "y" rfl rfl rfl rfl rfl ?_
    intro r hr
    rcases List.mem_cons.mp hr with rfl | hr₂
    · exact ⟨_, rfl⟩
    · rcases List.mem_cons.mp hr₂ with rfl | hr₃
      · exact ⟨_, rfl⟩
      · cases hr₃
  · exact c1_duplicate_name_poisons.2 cfgWorldC1dup "a" initState "k"
      (fun _ => .ok .null) rfl (Or.inl rfl)

/-- Claim C3, amended: for a stored key, `Userinfo` parses the bytes as
JSON and unmarshals them into the `userinfo` struct.  Invalid JSON
fails; an object with a string `username` and an absent or empty
`password` yields the username-only credential `url.User(username)`;
a nonempty string `password` yields
`url.UserPassword(username, password)`; valid JSON whose top-level
value is neither an object nor `null` — a bool, a number (for example
raw text `1234567890`), a string, or an array — fails.  Amendments
forced by the counterexamples in `encoding/json`'s decoding rules: a
JSON object *missing* the `username` member does not fail
(`encoding/json` leaves the field at its zero value, so `Userinfo`
succeeds with `url.User("")`), and a top-level JSON `null` is a
documented no-op success, likewise yielding `url.User("")`. -/
theorem c3_userinfo_shapes (w : World) (m : Store) (n b : String) (s : PkgState)
    (hld : loadResult w = .ok m) (hb : storeGet m n = some b) (hs : Reached w s) :
    (jsonParse b = none →
      (Userinfo w s n).2 = (none, some (unmarshalWrapErr n "*url.Userinfo" jsonSyntaxErr))) ∧
    (∀ u, jsonParse b = some (.obj [("username", .str u)]) →
      (Userinfo w s n).2 = (some (urlUser u), none)) ∧
    (∀ u p, jsonParse b = some (.obj [("username", .str u), ("password", .str p)]) →
      p ≠ "" → (Userinfo w s n).2 = (some (urlUserPassword u p), none)) ∧
    (∀ u, jsonParse b = some (.obj [("username", .str u), ("password", .str "")]) →
      (Userinfo w s n).2 = (some (urlUser u), none)) ∧
    (∀ lit, jsonParse b = some (.num lit) →
      (Userinfo w s n).2 =
        (none, some (unmarshalWrapErr n "*url.Userinfo"
          (jsonTypeErr "number" "config.userinfo")))) ∧
    (jsonParse b = some (.obj []) →
      (Userinfo w s n).2 = (some (urlUser ""), none)) ∧
    (jsonParse b = some .null →
      (Userinfo w s n).2 = (some (urlUser ""), none)) ∧
    (∀ bv, jsonParse b = some (.bool bv) →
      (Userinfo w s n).2 =
        (none, some (unmarshalWrapErr n "*url.Userinfo"
          (jsonTypeErr "bool" "config.userinfo")))) ∧
    (∀ sv, jsonParse b = some (.str sv) →
      (Userinfo w s n).2 =
        (none, some (unmarshalWrapErr n "*url.Userinfo"
          (jsonTypeErr "string" "config.userinfo")))) ∧
    (∀ xs, jsonParse b = some (.arr xs) →
      (Userinfo w s n).2 =
        (none, some (unmarshalWrapErr n "*url.Userinfo"
          (jsonTypeErr "array" "config.userinfo")))) := by
  have H := Userinfo_of_stored hld hb hs
  refine ⟨?_, ?_, ?_, ?_, ?_, ?_, ?_, ?_, ?_, ?_⟩
  · intro hp
    rw [H]
    unfold jsonUnmarshalUserinfo
    rw [hp]
  · intro u hp
    rw [H]
    unfold jsonUnmarshalUserinfo
    rw [hp]
    rfl
  · intro u p hp hpne
    rw [H]
    unfold jsonUnmarshalUserinfo
    rw [hp]
    show (if p = "" then (some (urlUser u), (none : Option GoError))
          else (some (urlUserPassword u p), none)) = (some (urlUserPassword u p), none)
    rw [if_neg hpne]
  · intro u hp
    rw [H]
    unfold jsonUnmarshalUserinfo
    rw [hp]
    rfl
  · intro lit hp
    rw [H]
    unfold jsonUnmarshalUserinfo
    rw [hp]
    rfl
  · intro hp
    rw [H]
    unfold jsonUnmarshalUserinfo
    rw [hp]
    rfl
  · intro hp
    rw [H]
    unfold jsonUnmarshalUserinfo
    rw [hp]
    rfl
  · intro bv hp
    rw [H]
    unfold jsonUnmarshalUserinfo
    rw [hp]
    rfl
  · intro sv hp
    rw [H]
    unfold jsonUnmarshalUserinfo
    rw [hp]
    rfl
  · intro xs hp
    rw [H]
    unfold jsonUnmarshalUserinfo
    rw [hp]
    rfl

/-- Counterexample to C3 as frozen: the stored file `ui` holds the JSON
object with no `username` member (and no `password`), and `Userinfo`
succeeds with the empty-username credential instead of returning an
error. -/
theorem c3_counterexample :
    (Bytes cfgWorldC3cex initState "ui").2 = (some "\x7b\x7d", none) ∧
    (Userinfo cfgWorldC3cex initState "ui").2 = (some (urlUser ""), none) :=
  ⟨rfl, rfl⟩

/-- Witness for C3 (amended) at a concrete world holding a
username-only object, a username+password object, raw number text, and
JSON `null`. -/
theorem c3_witness :
    (Userinfo cfgWorldC3 initState "u1").2 = (some (urlUser "user"), none) ∧
    (Userinfo cfgWorldC3 initState "u2").2 = (some (urlUserPassword "user" "pass"), none) ∧
    (Userinfo cfgWorldC3 initState "u3").2 =
      (none, some (unmarshalWrapErr "u3" "*url.Userinfo"
        (jsonTypeErr "number" "config.userinfo"))) ∧
    (Userinfo cfgWorldC3 initState "u4").2 = (some (urlUser ""), none) := by
  refine ⟨?_, ?_, ?_, ?_⟩
  · exact (c3_userinfo_shapes cfgWorldC3 _ "u1" "\x7b\"username\":\"user\"\x7d"
      initState rfl rfl (Or.inl rfl)).2.1 "user" rfl
  · exact (c3_userinfo_shapes cfgWorldC3 _ "u2"
      "\x7b\"username\":\"user\",\"password\":\"pass\"\x7d"
      initState rfl rfl (Or.inl rfl)).2.2.1 "user" "pass" rfl (by decide)
  · exact (c3_userinfo_shapes cfgWorldC3 _ "u3" "1234567890"
      initState rfl rfl (Or.inl rfl)).2.2.2.2.1 "1234567890" rfl
  · exact (c3_userinfo_shapes cfgWorldC3 _ "u4" "null"
      initState rfl rfl (Or.inl rfl)).2.2.2.2.2.2.1 rfl

/-! ## Bare strings and `url.Parse` -/

theorem bare_not_ctl :
    ∀ c ∈ bareChars, (decide (c.toNat < 0x20) || decide (c.toNat = 0x7f)) = false := by
  decide

theorem bare_ne_hash : ∀ c ∈ bareChars, c ≠ '#' := by decide

theorem bare_ne_qm : ∀ c ∈ bareChars, c ≠ '?' := by decide

theorem bare_ne_colon : ∀ c ∈ bareChars, c ≠ ':' := by decide

theorem bare_ne_slash : ∀ c ∈ bareChars, c ≠ '/' := by decide

theorem bare_ne_pct : ∀ c ∈ bareChars, c ≠ '%' := by decide

theorem bare_should_escape_path : ∀ c ∈ bareChars, shouldEscape c .path = false := by decide

theorem star_not_bare : ¬ ('*' ∈ bareChars) := by decide

theorem any_eq_false_of {l : List Char} {p : Char → Bool} (h : ∀ c ∈ l, p c = false) :
    l.any p = false := by
  induction l with
  | nil => rfl
  | cons c cs ih =>
    rw [List.any_cons, h c (List.mem_cons_self _ _),
      ih (fun d hd => h d (List.mem_cons_of_mem _ hd))]
    rfl

theorem contains_eq_false_of {l : List Char} {a : Char} (h : ∀ c ∈ l, c ≠ a) :
    l.contains a = false := by
  induction l with
  | nil => rfl
  | cons c cs ih =>
    rw [List.contains_cons]
    have hc : (a == c) = false := beq_eq_false_iff_ne.mpr (Ne.symm (h c (List.mem_cons_self _ _)))
    rw [hc, ih (fun d hd => h d (List.mem_cons_of_mem _ hd))]
    rfl

theorem charIndex_of_not_mem {l : List Char} {a : Char} (h : ∀ c ∈ l, c ≠ a) :
    charIndex l a = none := by
  induction l with
  | nil => rfl
  | cons c cs ih =>
    simp [charIndex, h c (List.mem_cons_self _ _),
      ih (fun d hd => h d (List.mem_cons_of_mem _ hd))]

theorem splitOnceChar_of_not_mem {l : List Char} {a : Char} (cutc : Bool)
    (h : ∀ c ∈ l, c ≠ a) : splitOnceChar cutc a l = (l, []) := by
  induction l with
  | nil => rfl
  | cons c cs ih =>
    simp [splitOnceChar, h c (List.mem_cons_self _ _),
      ih (fun d hd => h d (List.mem_cons_of_mem _ hd))]

theorem getSchemeLoop_no_colon {orig l : List Char} (h : ∀ c ∈ l, c ≠ ':') :
    ∀ acc, getSchemeLoop orig acc l = .ok ([], orig) := by
  induction l with
  | nil => intro acc; rfl
  | cons c cs ih =>
    intro acc
    have hc : c ≠ ':' := h c (List.mem_cons_self _ _)
    have ihh := ih (fun d hd => h d (List.mem_cons_of_mem _ hd))
    by_cases h₁ : ('a' ≤ c ∧ c ≤ 'z') ∨ ('A' ≤ c ∧ c ≤ 'Z')
    · simp [getSchemeLoop, h₁, ihh]
    · by_cases h₂ : ('0' ≤ c ∧ c ≤ '9') ∨ c = '+' ∨ c = '-' ∨ c = '.'
      · by_cases h₃ : acc = ([] : List Char)
        · simp [getSchemeLoop, h₁, h₂, h₃]
        · simp [getSchemeLoop, h₁, h₂, h₃, ihh]
      · simp [getSchemeLoop, h₁, h₂, hc]

theorem endsWithQM_of_bare {l : List Char} (h : ∀ c ∈ l, c ≠ '?') :
    endsWithQM l = false := by
  unfold endsWithQM
  cases hr : l.reverse with
  | nil => rfl
  | cons c t =>
    have hc : c ∈ l := by
      rw [← List.mem_reverse, hr]
      exact List.mem_cons_self _ _
    simpa using beq_eq_false_iff_ne.mpr (h c hc)

theorem leadsWith2Slash_of_bare {l : List Char} (h : ∀ c ∈ l, c ≠ '/') :
    leadsWith2Slash l = false := by
  unfold leadsWith2Slash
  cases l with
  | nil => rfl
  | cons a t =>
    cases t with
    | nil => rfl
    | cons b t₂ =>
      have ha : (a == '/') = false :=
        beq_eq_false_iff_ne.mpr (h a (List.mem_cons_self _ _))
      show (a == '/' && b == '/') = false
      rw [ha, Bool.false_and]

theorem unescapeChars_path_of_bare {l : List Char} (h : ∀ c ∈ l, c ∈ bareChars) :
    unescapeChars l .path = .ok l := by
  induction l with
  | nil => rfl
  | cons c cs ih =>
    have hpct : c ≠ '%' := bare_ne_pct c (h c (List.mem_cons_self _ _))
    have ihh := ih (fun d hd => h d (List.mem_cons_of_mem _ hd))
    unfold unescapeChars
    rw [if_neg hpct]
    by_cases hplus : c = '+'
    · rw [if_pos hplus, ihh]
      subst hplus
      rfl
    · rw [if_neg hplus]
      have hcond : ¬ ((UrlEncoding.path = .host ∨ UrlEncoding.path = .zone) ∧
          c.toNat < 0x80 ∧ shouldEscape c .path = true) := by
        rintro ⟨h₁ | h₁, -⟩ <;> cases h₁
      rw [if_neg hcond, ihh]

theorem escapeChars_path_of_bare {l : List Char} (h : ∀ c ∈ l, c ∈ bareChars) :
    escapeChars l .path = l := by
  induction l with
  | nil => rfl
  | cons c cs ih =>
    simp [escapeChars, bare_should_escape_path c (h c (List.mem_cons_self _ _)),
      ih (fun d hd => h d (List.mem_cons_of_mem _ hd))]

theorem setPath_bare (u : URL) {l : List Char} (h : ∀ c ∈ l, c ∈ bareChars) :
    setPath u l = .ok { u with path := String.mk l, rawPath := "" } := by
  unfold setPath
  rw [unescapeChars_path_of_bare h]
  simp [escapeChars_path_of_bare h]

theorem parseAuthPath_bare {l : List Char} (h : ∀ c ∈ l, c ∈ bareChars) :
    parseAuthPath [] false [] l = .ok { path := String.mk l } := by
  unfold parseAuthPath
  have h2 : leadsWith2Slash l = false :=
    leadsWith2Slash_of_bare (fun c hc => bare_ne_slash c (h c hc))
  simp [h2, setPath_bare _ h]

theorem parseAfterQuery_bare {l : List Char} (h : ∀ c ∈ l, c ∈ bareChars) :
    parseAfterQuery [] false [] l = .ok { path := String.mk l } := by
  unfold parseAfterQuery
  split
  · next t =>
    exfalso
    exact absurd (h '/' (List.mem_cons_self _ _)) (by decide)
  · next =>
    have hcolon : charIndex l ':' = none :=
      charIndex_of_not_mem (fun c hc => bare_ne_colon c (h c hc))
    simp [hcolon, parseAuthPath_bare h]

theorem parseURLNoFrag_bare {l : List Char} (h : ∀ c ∈ l, c ∈ bareChars) :
    parseURLNoFrag l = .ok { path := String.mk l } := by
  unfold parseURLNoFrag
  have hctl : containsCTLByte l = false := by
    unfold containsCTLByte
    exact any_eq_false_of (fun c hc => bare_not_ctl c (h c hc))
  have hstar : ¬ (l = ['*']) := by
    intro he
    exact absurd (h '*' (by rw [he]; exact List.mem_cons_self _ _)) star_not_bare
  have hgs : getScheme l = .ok ([], l) := by
    unfold getScheme
    exact getSchemeLoop_no_colon (fun c hc => bare_ne_colon c (h c hc)) []
  have hq : endsWithQM l = false := endsWithQM_of_bare (fun c hc => bare_ne_qm c (h c hc))
  have hsp : splitOnceChar true '?' l = (l, []) :=
    splitOnceChar_of_not_mem true (fun c hc => bare_ne_qm c (h c hc))
  simp [hctl, hstar, hgs, hq, hsp, parseAfterQuery_bare h]

theorem urlParse_bare (b : String) (h : ∀ c ∈ b.data, c ∈ bareChars) :
    urlParse b = .ok { path := b } := by
  unfold urlParse urlParseChars
  have hsp : splitOnceChar true '#' b.data = (b.data, []) :=
    splitOnceChar_of_not_mem true (fun c hc => bare_ne_hash c (h c hc))
  simp [hsp, parseURLNoFrag_bare h]

/-- Claim C8: for a stored key, `Url` is `url.Parse` applied to the
stored text — it succeeds with the parsed URL exactly when the grammar
accepts the string and fails (wrapping the parser's error with the key)
exactly when the grammar rejects it; a bare string of structure-free
characters (no scheme) is accepted as a path-only URL; and the two
concrete examples from the specification parse as stated. -/
theorem c8_url_parse (w : World) (m : Store) (n b : String) (s : PkgState)
    (hld : loadResult w = .ok m) (hb : storeGet m n = some b) (hs : Reached w s) :
    (∀ u, urlParse b = .ok u → (Url w s n).2 = (some u, none)) ∧
    (∀ e, urlParse b = .error e →
      (Url w s n).2 = (none, some (unmarshalWrapErr n "*url.URL" e))) ∧
    ((∀ c ∈ b.data, c ∈ bareChars) →
      (Url w s n).2 = (some { path := b }, none)) ∧
    urlParse "1234567890" = .ok { path := "1234567890" } ∧
    urlParse "http://google.com?q=tuukka" =
      .ok { scheme := "http", host := "google.com", rawQuery := "q=tuukka" } := by
  have H := Url_of_stored hld hb hs
  refine ⟨?_, ?_, ?_, rfl, rfl⟩
  · intro u hu
    rw [H, hu]
  · intro e he
    rw [H, he]
  · intro hbare
    rw [H, urlParse_bare b hbare]

/-- Witness for C8 at a concrete world holding the two example URL
texts. -/
theorem c8_witness :
    (Url cfgWorldC8 initState "url1").2 = (some { path := "1234567890" }, none) ∧
    (Url cfgWorldC8 initState "url2").2 =
      (some { scheme := "http", host := "google.com", rawQuery := "q=tuukka" }, none) := by
  constructor
  · exact (c8_url_parse cfgWorldC8 _ "url1" "1234567890" initState
      rfl rfl (Or.inl rfl)).1 _ rfl
  · exact (c8_url_parse cfgWorldC8 _ "url2" "http://google.com?q=tuukka" initState
      rfl rfl (Or.inl rfl)).1 _ rfl

end Config
